import Mathlib

/-!
Shallow embedding of the VICE binary-monitor client
(`src/protocol/client.ts` together with the protocol constants of
`src/protocol/types.ts`, API-v1 variant used by the client: the variant
defining `Continue`, `Step`, `Stopped = 0x62`, `Resumed = 0x63`,
`RegisterInfo = 0x31`, `MemoryGet = 0x01`).

Buffers are modelled as `List Nat` of byte values; JavaScript `Map`s as
association lists in insertion order (`Map.set` on an existing key replaces
the value in place, otherwise appends; iteration is insertion order).
-/

namespace Vice

/-- Protocol constant `STX` from types.ts. -/
def STX : Nat := 0x02

/-- Protocol constant `API_VERSION` from types.ts (API v1). -/
def API_VERSION : Nat := 0x01

namespace Command

/-- Command code `MemoryGet` from types.ts. -/
def MemoryGet : Nat := 0x01

/-- Command code `MemorySet` from types.ts. -/
def MemorySet : Nat := 0x02

/-- Command code `CheckpointSet` from types.ts. -/
def CheckpointSet : Nat := 0x11

/-- Command code `CheckpointDelete` from types.ts. -/
def CheckpointDelete : Nat := 0x13

end Command

namespace ResponseType

/-- Response type `MemoryGet` from types.ts. -/
def MemoryGet : Nat := 0x01

/-- Response type `RegisterInfo` from types.ts. -/
def RegisterInfo : Nat := 0x31

/-- Response type `Stopped` (async event) from types.ts. -/
def Stopped : Nat := 0x62

/-- Response type `Resumed` (async event) from types.ts. -/
def Resumed : Nat := 0x63

end ResponseType

namespace ErrorCode

/-- Error code `Ok` from types.ts. -/
def Ok : Nat := 0x00

end ErrorCode

/-- The `ViceResponse` record of types.ts: one parsed frame. -/
structure ViceResponse where
  responseType : Nat
  errorCode : Nat
  requestId : Nat
  body : List Nat
deriving DecidableEq, Repr

/-- Buffer.readUInt32LE at a given offset (little endian), as used by
`handleData` to read the body length at offset 2. -/
def readUInt32LE (b : List Nat) (off : Nat) : Nat :=
  b.getD off 0 + b.getD (off + 1) 0 * 256 + b.getD (off + 2) 0 * 65536 +
    b.getD (off + 3) 0 * 16777216

/-- Little-endian 16-bit encoding, as produced by Buffer.writeUInt16LE. -/
def uint16LE (n : Nat) : List Nat := [n % 256, n / 256 % 256]

/-- Little-endian 32-bit encoding, as produced by Buffer.writeUInt32LE. -/
def uint32LE (n : Nat) : List Nat :=
  [n % 256, n / 256 % 256, n / 65536 % 256, n / 16777216 % 256]

/-- Frame parsed from the first `9 + bodyLength` bytes of the buffer, exactly
as `handleData` reads it: type at index 6, error code at index 7, request id
at index 8, then the body. -/
def parseFrame (b : List Nat) : ViceResponse :=
  { responseType := b.getD 6 0
    errorCode := b.getD 7 0
    requestId := b.getD 8 0
    body := (b.drop 9).take (readUInt32LE b 2) }

/-- The `while` loop of `handleData`, with explicit fuel (one unit per loop
iteration; each iteration either stops, drops one byte on resync, or consumes
a whole frame of at least 9 bytes, so `buf.length` units always suffice):
while at least the 9 header bytes are buffered, a leading byte other than
`STX` is dropped for resync; otherwise the body length is read at offset 2
and, if the whole frame is buffered, it is sliced off and yielded. -/
def extractFuel : Nat → List Nat → List ViceResponse × List Nat
  | 0, buf => ([], buf)
  | fuel + 1, buf =>
    if buf.length < 9 then ([], buf)
    else if buf.getD 0 0 ≠ STX then extractFuel fuel buf.tail
    else
      let bodyLength := readUInt32LE buf 2
      let totalLength := 9 + bodyLength
      if buf.length < totalLength then ([], buf)
      else
        let r := extractFuel fuel (buf.drop totalLength)
        (parseFrame buf :: r.1, r.2)

/-- The frame codec of `handleData`: extract all complete frames from the
buffer, returning them in order together with the remaining (incomplete)
buffer contents. -/
def extract (buf : List Nat) : List ViceResponse × List Nat :=
  extractFuel buf.length buf

/-- One call of `handleData`: the chunk is appended to the response buffer
and all complete frames are extracted. -/
def handleDataCodec (buf chunk : List Nat) : List ViceResponse × List Nat :=
  extract (buf ++ chunk)

/-- Feeding a sequence of chunks to `handleData` one by one, starting from an
empty response buffer; returns all yielded frames and the final buffer. -/
def feedChunks (chunks : List (List Nat)) : List ViceResponse × List Nat :=
  chunks.foldl
    (fun acc chunk =>
      let r := handleDataCodec acc.2 chunk
      (acc.1 ++ r.1, r.2))
    ([], [])

/-- Error identities carried by `reject` calls in client.ts: the code string
of the `ViceError` built by `makeError` at each rejection site. -/
inductive RejectCode where
  | viceError (code : Nat)
  | connectionClosed
  | responseTimeout
  | sendFailed
deriving DecidableEq, Repr

/-- How a pending promise is settled: `resolve(response)` or
`reject(makeError ...)`. -/
inductive Outcome where
  | resolved (r : ViceResponse)
  | rejected (c : RejectCode)
deriving DecidableEq, Repr

/-- One value of the `pendingRequests` map: the resolve/reject pair is
identified by an abstract caller token, plus the optional
`expectedResponseType` used for async-event matching. -/
structure PendingEntry where
  tok : Nat
  expectedResponseType : Option Nat
deriving DecidableEq, Repr

/-- Observable effects of the client: invoking the `onStopped` / `onResumed`
event handlers, and settling (resolving or rejecting) a caller's promise. -/
inductive Action where
  | onStopped (r : ViceResponse)
  | onResumed (r : ViceResponse)
  | settle (tok : Nat) (o : Outcome)
deriving DecidableEq, Repr

/-- JavaScript `Map.set`: replace the value in place when the key exists
(keeping its insertion-order position), otherwise append. -/
def mapSet {α : Type} (m : List (Nat × α)) (k : Nat) (v : α) : List (Nat × α) :=
  if (m.lookup k).isSome then
    m.map (fun p => if p.1 = k then (k, v) else p)
  else m ++ [(k, v)]

/-- JavaScript `Map.delete`. -/
def mapDelete {α : Type} (m : List (Nat × α)) (k : Nat) : List (Nat × α) :=
  m.filter (fun p => p.1 != k)

/-- Settling of one pending entry against a frame, as in `handleResponse`:
non-`Ok` error codes reject with a `VICE_ERROR_<code>` error, otherwise the
promise resolves with the response. -/
def settleOf (e : PendingEntry) (r : ViceResponse) : Action :=
  if r.errorCode ≠ ErrorCode.Ok then
    Action.settle e.tok (Outcome.rejected (RejectCode.viceError r.errorCode))
  else Action.settle e.tok (Outcome.resolved r)

/-- The correlation part of `handleResponse`: a frame with the async sentinel
request id `0xff` is matched against the first pending request (in Map
insertion order) whose `expectedResponseType` equals the frame's type, which
is then deleted and settled; any other request id is looked up directly in
the pending map. Unmatched frames are dropped. -/
def correlate (pending : List (Nat × PendingEntry)) (r : ViceResponse) :
    List (Nat × PendingEntry) × List Action :=
  if r.requestId = 0xff then
    match pending.find? (fun p => p.2.expectedResponseType == some r.responseType) with
    | some p => (mapDelete pending p.1, [settleOf p.2 r])
    | none => (pending, [])
  else
    match pending.lookup r.requestId with
    | some e => (mapDelete pending r.requestId, [settleOf e r])
    | none => (pending, [])

/-- The part of the client state read and written by `handleResponse`. -/
structure CorrState where
  pending : List (Nat × PendingEntry)
  running : Bool
deriving DecidableEq, Repr

/-- `handleResponse` from client.ts: first the `Stopped` / `Resumed` async
state-change checks (each updates `state.running` and fires the event
handler, without returning early), then correlation against the pending
request map. -/
def handleResponse (st : CorrState) (r : ViceResponse) : CorrState × List Action :=
  let s1 : Bool × List Action :=
    if r.responseType = ResponseType.Stopped then (false, [Action.onStopped r])
    else (st.running, [])
  let s2 : Bool × List Action :=
    if r.responseType = ResponseType.Resumed then (true, s1.2 ++ [Action.onResumed r])
    else (s1.1, s1.2)
  let c := correlate st.pending r
  (⟨c.1, s2.1⟩, s2.2 ++ c.2)

/-- Request id allocation from client.ts: `(this.requestId + 1) & 0xff`. -/
def nextRequestId (requestId : Nat) : Nat := (requestId + 1) &&& 0xff

/-- State of one connected `ViceClient`: the request id counter, the
`pendingRequests` map keyed by request id, the set of response timeouts
scheduled by `sendCommand` and not yet elapsed (caller token paired with the
request id captured by the timeout closure), the connection flags, and the
`running` flag. -/
structure ClientState where
  requestId : Nat
  pending : List (Nat × PendingEntry)
  armed : List (Nat × Nat)
  connected : Bool
  socketPresent : Bool
  running : Bool
deriving DecidableEq, Repr

/-- Client state right after a successful `connect()`: fresh field values
with `connected := true`. -/
def initState : ClientState :=
  { requestId := 0, pending := [], armed := [], connected := true,
    socketPresent := true, running := true }

/-- External events driving the client: a `sendCommand` call by some caller
(`writeErr` true models the socket-write callback reporting an error), a
complete frame arriving, the 10-second response timeout of one call
elapsing, and the socket `close` event. -/
inductive Ev where
  | send (tok : Nat) (expectedResponseType : Option Nat) (writeErr : Bool)
  | frame (r : ViceResponse)
  | fire (tok : Nat)
  | close
deriving DecidableEq, Repr

/-- One event of the client state machine, following client.ts:

* `send`: `sendCommand` throws `NOT_CONNECTED` (registering nothing) unless a
  socket is present and connected; otherwise it allocates the next request
  id, registers the pending entry (`Map.set`), schedules the response
  timeout, and on a write error deletes the entry again and rejects with
  `SEND_FAILED` (the timeout stays scheduled).
* `frame`: `handleResponse` on the parsed frame.
* `fire`: the timeout callback of `sendCommand`: if the captured request id
  is still in `pendingRequests`, delete it and reject with
  `RESPONSE_TIMEOUT`; either way the timer is now spent.
* `close`: the socket `close` handler: `connected := false`, the socket
  handle is dropped, every pending request is rejected with
  `CONNECTION_CLOSED`, and the map is cleared. -/
def step (st : ClientState) : Ev → ClientState × List Action
  | Ev.send tok expected writeErr =>
    if st.socketPresent && st.connected then
      let rid := nextRequestId st.requestId
      let pending1 := mapSet st.pending rid ⟨tok, expected⟩
      let armed1 := st.armed ++ [(tok, rid)]
      if writeErr then
        ({ st with requestId := rid, pending := mapDelete pending1 rid, armed := armed1 },
          [Action.settle tok (Outcome.rejected RejectCode.sendFailed)])
      else
        ({ st with requestId := rid, pending := pending1, armed := armed1 }, [])
    else (st, [])
  | Ev.frame r =>
    let hr := handleResponse ⟨st.pending, st.running⟩ r
    ({ st with pending := hr.1.pending, running := hr.1.running }, hr.2)
  | Ev.fire tok =>
    match st.armed.find? (fun p => p.1 == tok) with
    | none => (st, [])
    | some p =>
      let armed1 := st.armed.filter (fun q => q.1 != tok)
      if (st.pending.lookup p.2).isSome then
        ({ st with pending := mapDelete st.pending p.2, armed := armed1 },
          [Action.settle tok (Outcome.rejected RejectCode.responseTimeout)])
      else ({ st with armed := armed1 }, [])
  | Ev.close =>
    ({ st with connected := false, socketPresent := false, pending := [] },
      st.pending.map (fun p => Action.settle p.2.tok (Outcome.rejected RejectCode.connectionClosed)))

/-- Running a sequence of events, accumulating all emitted actions. -/
def run (st : ClientState) : List Ev → ClientState × List Action
  | [] => (st, [])
  | ev :: rest =>
    let s := step st ev
    let r := run s.1 rest
    (r.1, s.2 ++ r.2)

/-- Number of times the caller identified by `tok` is settled (resolved or
rejected) in a list of actions. -/
def countSettles (tok : Nat) (acts : List Action) : Nat :=
  (acts.filter (fun a =>
    match a with
    | Action.settle t _ => t == tok
    | _ => false)).length

/-- The `sendCommand` connectivity guard: `!this.socket || !this.state.connected`
throws before anything is registered. -/
def canSend (st : ClientState) : Bool := st.socketPresent && st.connected

/-- The `connect()` guard: it throws `ALREADY_CONNECTED` when a socket handle
is still held, so a connect attempt can proceed exactly when the handle was
released. -/
def connectAllowed (st : ClientState) : Bool := !st.socketPresent

/-- A request id is fresh when it collides neither with a live pending entry
nor with a request id captured by a still-scheduled response timeout. -/
def freshId (st : ClientState) (rid : Nat) : Bool :=
  (st.pending.lookup rid).isNone && st.armed.all (fun p => p.2 != rid)

/-- Trace discipline for the exactly-once theorem: caller tokens of `send`
events are pairwise distinct, and every send that actually registers (socket
present and connected) allocates a fresh request id. -/
def okFrom (sent : List Nat) (st : ClientState) : List Ev → Bool
  | [] => true
  | ev :: rest =>
    let pass :=
      match ev with
      | Ev.send tok _ _ =>
        !(sent.contains tok) && (!(canSend st) || freshId st (nextRequestId st.requestId))
      | _ => true
    let sent1 :=
      match ev with
      | Ev.send tok _ _ => tok :: sent
      | _ => sent
    pass && okFrom sent1 (step st ev).1 rest

/-- Whether the trace contains a `send` event for `tok` that actually
registers a pending entry (i.e. is executed while sendable). -/
def registersTok (st : ClientState) (evs : List Ev) (tok : Nat) : Bool :=
  match evs with
  | [] => false
  | ev :: rest =>
    (match ev with
      | Ev.send t _ _ => t == tok && canSend st
      | _ => false) || registersTok (step st ev).1 rest tok

/-- Local validation errors thrown by the command facade before any network
I/O (codes of the `ViceError` built by `makeError`). -/
inductive LocalErr where
  | invalidAddress
  | invalidRange
  | invalidData
deriving DecidableEq, Repr

/-- Validation and request construction of `readMemory`: address checks in
source order, then the 6-byte body `side_effects(1) + start(2,LE) +
memspace(1) + end(2,LE)` sent as `MemoryGet` with expected response type
`MemoryGet`; an `error` result models the synchronous local throw, before
any bytes are sent or any pending call is registered. -/
def readMemoryCmd (startAddress endAddress : Int) (memspace : Nat) :
    Except LocalErr (Nat × List Nat × Option Nat) :=
  if startAddress < 0 || startAddress > 0xffff then Except.error LocalErr.invalidAddress
  else if endAddress < 0 || endAddress > 0xffff then Except.error LocalErr.invalidAddress
  else if startAddress > endAddress then Except.error LocalErr.invalidRange
  else Except.ok (Command.MemoryGet,
    [0] ++ uint16LE startAddress.toNat ++ [memspace] ++ uint16LE endAddress.toNat,
    some ResponseType.MemoryGet)

/-- Validation and request construction of `writeMemory`: address check,
empty-payload check, end-of-memory check, then the body `side_effects(1) +
start(2,LE) + memspace(1) + (length-1 truncated to one byte)(1) + data`,
sent as `MemorySet`. -/
def writeMemoryCmd (address : Int) (data : List Nat) (memspace : Nat) :
    Except LocalErr (Nat × List Nat) :=
  if address < 0 || address > 0xffff then Except.error LocalErr.invalidAddress
  else if data.length = 0 then Except.error LocalErr.invalidData
  else if (address + data.length : Int) > 0x10000 then Except.error LocalErr.invalidRange
  else Except.ok (Command.MemorySet,
    [0] ++ uint16LE address.toNat ++ [memspace] ++ [(data.length - 1) % 256] ++ data)

/-- Checkpoint kind tag stored in the local tracking map. -/
inductive CheckpointType where
  | exec
  | load
  | store
deriving DecidableEq, Repr

/-- The `CheckpointInfo` record of client.ts. -/
structure CheckpointInfo where
  id : Nat
  startAddress : Nat
  endAddress : Nat
  enabled : Bool
  temporary : Bool
  type : CheckpointType
deriving DecidableEq, Repr

namespace CheckpointOp

/-- Checkpoint operation bit `Exec` from types.ts. -/
def Exec : Nat := 0x01

/-- Checkpoint operation bit `Load` from types.ts. -/
def Load : Nat := 0x02

/-- Checkpoint operation bit `Store` from types.ts. -/
def Store : Nat := 0x04

end CheckpointOp

/-- Watchpoint type argument of `setWatchpoint`. -/
inductive WatchType where
  | load
  | store
  | both
deriving DecidableEq, Repr

/-- `setWatchpoint`: validation in source order, the operation mask and
tracked kind, the 8-byte request body, and the local tracking `Map.set`
keyed by the peer-returned checkpoint id (`responseId`). -/
def setWatchpointCmd (cps : List (Nat × CheckpointInfo))
    (startAddress endAddress : Int) (type : WatchType)
    (enabled stop temporary : Bool) (responseId : Nat) :
    Except LocalErr (List Nat × List (Nat × CheckpointInfo)) :=
  if startAddress < 0 || startAddress > 0xffff then Except.error LocalErr.invalidAddress
  else if endAddress < 0 || endAddress > 0xffff then Except.error LocalErr.invalidAddress
  else if startAddress > endAddress then Except.error LocalErr.invalidRange
  else
    let op : Nat :=
      match type with
      | WatchType.load => CheckpointOp.Load
      | WatchType.store => CheckpointOp.Store
      | WatchType.both => CheckpointOp.Load ||| CheckpointOp.Store
    let checkpointType : CheckpointType :=
      match type with
      | WatchType.load => CheckpointType.load
      | WatchType.store => CheckpointType.store
      | WatchType.both => CheckpointType.load
    let body := uint16LE startAddress.toNat ++ uint16LE endAddress.toNat ++
      [if stop then 1 else 0, if enabled then 1 else 0, op, if temporary then 1 else 0]
    Except.ok (body, mapSet cps responseId
      { id := responseId, startAddress := startAddress.toNat,
        endAddress := endAddress.toNat, enabled := enabled,
        temporary := temporary, type := checkpointType })

/-- `deleteBreakpoint`: no validation and no local lookup; the 4-byte id body
is always built and sent as `CheckpointDelete`, and the id is removed from
the local tracking map afterwards. -/
def deleteBreakpointCmd (cps : List (Nat × CheckpointInfo)) (checkpointId : Nat) :
    (Nat × List Nat) × List (Nat × CheckpointInfo) :=
  ((Command.CheckpointDelete, uint32LE checkpointId), mapDelete cps checkpointId)

/-- Modelled from the spec: the async-match behaviour claimed in §4.2 —
walk the pending calls in FIFO/insertion order and resolve the oldest one
whose expected kind equals the frame's kind, removing exactly that entry;
drop the frame if nothing matches. The refinement theorem for C1 compares
`correlate` against this formulation. -/
def asyncScanSpec (pending : List (Nat × PendingEntry)) (r : ViceResponse) :
    List (Nat × PendingEntry) × List Action :=
  match pending with
  | [] => ([], [])
  | p :: rest =>
    if p.2.expectedResponseType = some r.responseType then (rest, [settleOf p.2 r])
    else
      let q := asyncScanSpec rest r
      (p :: q.1, q.2)

/-- Caller tokens with a scheduled, not yet elapsed, response timeout. -/
def armedToks (st : ClientState) : List Nat := st.armed.map Prod.fst

/-- Caller tokens of the currently pending entries. -/
def pendingToks (st : ClientState) : List Nat := st.pending.map (fun p => p.2.tok)

/-- Structural invariant of the client state: pending keys are distinct (it
is a Map), armed timers belong to distinct callers, the request ids captured
by armed timers are distinct, and every pending entry has a matching armed
timer. -/
def Ginv (st : ClientState) : Prop :=
  (st.pending.map Prod.fst).Nodup ∧
  (st.armed.map Prod.fst).Nodup ∧
  (st.armed.map Prod.snd).Nodup ∧
  ∀ p ∈ st.pending, (p.2.tok, p.1) ∈ st.armed

/-- The caller `tok` has no live pending entry and no scheduled timer:
either not yet registered, or fully finished (settled and timer elapsed). -/
def PhaseFree (st : ClientState) (tok : Nat) : Prop :=
  tok ∉ armedToks st ∧ tok ∉ pendingToks st

/-- The caller `tok` is live: registered under request id `rid` with its
timer scheduled, and its entry is the unique pending entry carrying `tok`. -/
def PhaseLive (st : ClientState) (tok : Nat) : Prop :=
  ∃ rid e, (tok, rid) ∈ st.armed ∧ (rid, e) ∈ st.pending ∧ e.tok = tok ∧
    ∀ p ∈ st.pending, p.2.tok = tok → p = (rid, e)

/-- The caller `tok` has been settled (its entry removed from the pending
map) but its response timeout is still scheduled. -/
def PhaseSettledArmed (st : ClientState) (tok : Nat) : Prop :=
  ∃ rid, (tok, rid) ∈ st.armed ∧ (∀ e, (rid, e) ∉ st.pending) ∧
    tok ∉ pendingToks st

/-- Counterexample trace for the unconditional exactly-once claim: 257
`sendCommand` calls issued within one timeout window (callers 2..256 receive
their timeout in between, keeping the table small). Call 257 wraps the 8-bit
request id counter back to id 1 while caller 1 is still pending, so
`Map.set` silently replaces caller 1's entry; caller 1's timeout then
removes caller 257's entry while rejecting caller 1, and caller 257 is never
settled at all. -/
def wrapTrace : List Ev :=
  Ev.send 1 none false ::
    (((List.range 255).map
      (fun i => [Ev.send (i + 2) none false, Ev.fire (i + 2)])).flatten ++
      [Ev.send 257 none false, Ev.fire 1, Ev.fire 257])

lemma extractFuel_congr : ∀ (f1 f2 : Nat) (buf : List Nat),
    buf.length ≤ f1 → buf.length ≤ f2 → extractFuel f1 buf = extractFuel f2 buf := by
  intro f1
  induction f1 with
  | zero =>
    intro f2 buf h1 _
    have hb : buf = [] := List.length_eq_zero.mp (Nat.le_zero.mp h1)
    subst hb
    cases f2 with
    | zero => rfl
    | succ m => simp [extractFuel]
  | succ n ih =>
    intro f2 buf h1 h2
    cases f2 with
    | zero =>
      have hb : buf = [] := List.length_eq_zero.mp (Nat.le_zero.mp h2)
      subst hb
      simp [extractFuel]
    | succ m =>
      have htl : buf.tail.length = buf.length - 1 := List.length_tail buf
      have hdl : ∀ t : Nat, (buf.drop t).length = buf.length - t :=
        fun t => List.length_drop t buf
      simp only [extractFuel]
      split_ifs with h9 hstx hlt
      · rfl
      · rw [ih m buf.tail (by omega) (by omega)]
      · rfl
      · rw [ih m (buf.drop (9 + readUInt32LE buf 2)) (by rw [hdl]; omega)
          (by rw [hdl]; omega)]

lemma extractFuel_eq_extract (fuel : Nat) (buf : List Nat) (h : buf.length ≤ fuel) :
    extractFuel fuel buf = extract buf :=
  extractFuel_congr fuel buf.length buf h le_rfl

lemma extract_eq (buf : List Nat) :
    extract buf =
      if buf.length < 9 then ([], buf)
      else if buf.getD 0 0 ≠ STX then extract buf.tail
      else if buf.length < 9 + readUInt32LE buf 2 then ([], buf)
      else (parseFrame buf :: (extract (buf.drop (9 + readUInt32LE buf 2))).1,
        (extract (buf.drop (9 + readUInt32LE buf 2))).2) := by
  have h1 : extract buf = extractFuel (buf.length + 1) buf :=
    (extractFuel_eq_extract _ _ (Nat.le_succ _)).symm
  rw [h1]
  show (if buf.length < 9 then (([], buf) : List ViceResponse × List Nat)
      else if buf.getD 0 0 ≠ STX then extractFuel buf.length buf.tail
      else if buf.length < 9 + readUInt32LE buf 2 then ([], buf)
      else
        (parseFrame buf ::
            (extractFuel buf.length (buf.drop (9 + readUInt32LE buf 2))).1,
          (extractFuel buf.length (buf.drop (9 + readUInt32LE buf 2))).2)) = _
  have htl : extractFuel buf.length buf.tail = extract buf.tail :=
    extractFuel_eq_extract _ _ (by rw [List.length_tail]; omega)
  have hdr : extractFuel buf.length (buf.drop (9 + readUInt32LE buf 2)) =
      extract (buf.drop (9 + readUInt32LE buf 2)) :=
    extractFuel_eq_extract _ _ (by rw [List.length_drop]; omega)
  rw [htl, hdr]

lemma extract_small (buf : List Nat) (h : buf.length < 9) : extract buf = ([], buf) := by
  rw [extract_eq, if_pos h]

lemma extract_resync (buf : List Nat) (h9 : ¬ buf.length < 9)
    (hs : buf.getD 0 0 ≠ STX) : extract buf = extract buf.tail := by
  rw [extract_eq, if_neg h9, if_pos hs]

lemma extract_wait (buf : List Nat) (h9 : ¬ buf.length < 9)
    (hs : buf.getD 0 0 = STX) (hlt : buf.length < 9 + readUInt32LE buf 2) :
    extract buf = ([], buf) := by
  rw [extract_eq, if_neg h9, if_neg (not_not_intro hs), if_pos hlt]

lemma extract_frame (buf : List Nat) (h9 : ¬ buf.length < 9)
    (hs : buf.getD 0 0 = STX) (hge : ¬ buf.length < 9 + readUInt32LE buf 2) :
    extract buf =
      (parseFrame buf :: (extract (buf.drop (9 + readUInt32LE buf 2))).1,
        (extract (buf.drop (9 + readUInt32LE buf 2))).2) := by
  rw [extract_eq, if_neg h9, if_neg (not_not_intro hs), if_neg hge]

lemma readUInt32LE_append (b c : List Nat) (off : Nat) (h : off + 3 < b.length) :
    readUInt32LE (b ++ c) off = readUInt32LE b off := by
  unfold readUInt32LE
  rw [List.getD_append _ _ _ _ (by omega), List.getD_append _ _ _ _ (by omega),
    List.getD_append _ _ _ _ (by omega), List.getD_append _ _ _ _ (by omega)]

lemma parseFrame_append (b c : List Nat) (h9 : 9 ≤ b.length)
    (hlen : 9 + readUInt32LE b 2 ≤ b.length) :
    parseFrame (b ++ c) = parseFrame b := by
  have hr : readUInt32LE (b ++ c) 2 = readUInt32LE b 2 :=
    readUInt32LE_append b c 2 (by omega)
  unfold parseFrame
  rw [hr, List.getD_append _ _ _ _ (by omega), List.getD_append _ _ _ _ (by omega),
    List.getD_append _ _ _ _ (by omega), List.drop_append_of_le_length (by omega),
    List.take_append_of_le_length (by rw [List.length_drop]; omega)]

lemma extract_append_aux : ∀ (n : Nat) (b c : List Nat), b.length ≤ n →
    extract (b ++ c) =
      ((extract b).1 ++ (extract ((extract b).2 ++ c)).1,
        (extract ((extract b).2 ++ c)).2) := by
  intro n
  induction n with
  | zero =>
    intro b c h
    have hb : b = [] := List.length_eq_zero.mp (Nat.le_zero.mp h)
    subst hb
    have h0 : extract ([] : List Nat) = ([], []) := rfl
    simp [h0]
  | succ n ih =>
    intro b c h
    by_cases h9 : b.length < 9
    · rw [extract_small b h9]
      simp
    · have hget : (b ++ c).getD 0 0 = b.getD 0 0 :=
        List.getD_append _ _ _ _ (by omega)
      have hbc9 : ¬ (b ++ c).length < 9 := by
        rw [List.length_append]; omega
      by_cases hstx : b.getD 0 0 = STX
      · by_cases hlt : b.length < 9 + readUInt32LE b 2
        · rw [extract_wait b h9 hstx hlt]
          simp
        · have hr : readUInt32LE (b ++ c) 2 = readUInt32LE b 2 :=
            readUInt32LE_append b c 2 (by omega)
          have hbcs : (b ++ c).getD 0 0 = STX := by rw [hget]; exact hstx
          have hbcge : ¬ (b ++ c).length < 9 + readUInt32LE (b ++ c) 2 := by
            rw [hr, List.length_append]; omega
          rw [extract_frame _ hbc9 hbcs hbcge, extract_frame b h9 hstx hlt, hr,
            parseFrame_append b c (by omega) (by omega),
            List.drop_append_of_le_length (by omega),
            ih (b.drop (9 + readUInt32LE b 2)) c (by rw [List.length_drop]; omega)]
          simp
      · have hbcs : (b ++ c).getD 0 0 ≠ STX := by rw [hget]; exact hstx
        rw [extract_resync _ hbc9 hbcs, extract_resync b h9 hstx]
        have htail : (b ++ c).tail = b.tail ++ c := by
          cases b with
          | nil => simp at h9
          | cons a as => simp
        rw [htail]
        exact ih b.tail c (by rw [List.length_tail]; omega)

lemma extract_append (b c : List Nat) :
    extract (b ++ c) =
      ((extract b).1 ++ (extract ((extract b).2 ++ c)).1,
        (extract ((extract b).2 ++ c)).2) :=
  extract_append_aux b.length b c le_rfl

lemma extract_leftover (b : List Nat) :
    extract ((extract b).2) = ([], (extract b).2) := by
  have h := extract_append b []
  rw [List.append_nil, List.append_nil] at h
  obtain ⟨h1, h2⟩ := Prod.ext_iff.mp h
  simp only at h1 h2
  have hlen := congrArg List.length h1
  rw [List.length_append] at hlen
  have h3 : (extract ((extract b).2)).1 = [] :=
    List.length_eq_zero.mp (by omega)
  exact Prod.ext_iff.mpr ⟨h3, h2.symm⟩

lemma feedChunks_from : ∀ (cs : List (List Nat)) (fs : List ViceResponse)
    (buf : List Nat), extract buf = ([], buf) →
    cs.foldl
      (fun acc chunk =>
        let r := handleDataCodec acc.2 chunk
        (acc.1 ++ r.1, r.2)) (fs, buf) =
      (fs ++ (extract (buf ++ cs.flatten)).1, (extract (buf ++ cs.flatten)).2) := by
  intro cs
  induction cs with
  | nil =>
    intro fs buf hb
    simp [hb]
  | cons c cs ih =>
    intro fs buf hb
    rw [List.foldl_cons]
    show List.foldl
        (fun (acc : List ViceResponse × List Nat) chunk =>
          let r := handleDataCodec acc.2 chunk
          (acc.1 ++ r.1, r.2))
        (fs ++ (extract (buf ++ c)).1, (extract (buf ++ c)).2) cs =
      (fs ++ (extract (buf ++ (c :: cs).flatten)).1,
        (extract (buf ++ (c :: cs).flatten)).2)
    rw [ih _ _ (extract_leftover (buf ++ c))]
    have h := extract_append (buf ++ c) cs.flatten
    rw [List.flatten_cons, ← List.append_assoc, h]
    simp

/-- C3: the frame codec is chunking-invariant: feeding any byte sequence to
`handleData` split across arbitrary chunk boundaries (including mid-header
and mid-body splits) yields exactly the same frames, in the same order, as
feeding it in one chunk; all complete frames buffered are yielded before
returning, and the trailing incomplete remainder is left in the buffer
untouched (re-extracting the leftover yields no frame and leaves it
unchanged). -/
theorem codec_chunking_invariant :
    (∀ chunks : List (List Nat), feedChunks chunks = extract chunks.flatten) ∧
    (∀ b : List Nat, extract ((extract b).2) = ([], (extract b).2)) := by
  constructor
  · intro chunks
    unfold feedChunks
    rw [feedChunks_from chunks [] [] rfl]
    simp
  · exact extract_leftover

/-- C4: whenever at least the 9 header bytes are buffered and the leading
byte is not `STX`, the codec drops exactly one byte and re-examines the
buffer; one garbage byte followed by one complete valid frame yields exactly
that frame; and the processing loop terminates on every finite input — fuel
equal to the buffer length always suffices because every iteration shrinks
the buffer by at least one byte. -/
theorem codec_resync_and_termination :
    ∀ (g : Nat) (rest F : List Nat), g ≠ STX →
      (8 ≤ rest.length → extract (g :: rest) = extract rest) ∧
      (F.getD 0 0 = STX → F.length = 9 + readUInt32LE F 2 →
        extract (g :: F) = ([parseFrame F], [])) ∧
      (∀ fuel : Nat, (g :: rest).length ≤ fuel →
        extractFuel fuel (g :: rest) = extract (g :: rest)) := by
  intro g rest F hg
  refine ⟨?_, ?_, ?_⟩
  · intro h8
    have h9 : ¬ (g :: rest).length < 9 := by
      rw [List.length_cons]; omega
    have hs : (g :: rest).getD 0 0 ≠ STX := by simpa using hg
    rw [extract_resync _ h9 hs]
    rfl
  · intro hF hlen
    have h9 : ¬ (g :: F).length < 9 := by
      rw [List.length_cons]; omega
    have hs : (g :: F).getD 0 0 ≠ STX := by simpa using hg
    rw [extract_resync _ h9 hs]
    show extract F = ([parseFrame F], [])
    rw [extract_frame F (by omega) hF (by omega), ← hlen, List.drop_length]
    rfl
  · intro fuel hf
    exact extractFuel_eq_extract fuel _ hf

/-- Witness for C4: one garbage byte `0` ahead of the 9-byte frame
`[2,1,0,0,0,0,1,0,5]` is dropped and exactly that frame is yielded. -/
theorem codec_resync_and_termination_witness :
    (0 : Nat) ≠ STX ∧
      extract (0 :: [2, 1, 0, 0, 0, 0, 1, 0, 5]) =
        extract [2, 1, 0, 0, 0, 0, 1, 0, 5] ∧
      extract (0 :: [2, 1, 0, 0, 0, 0, 1, 0, 5]) =
        ([parseFrame [2, 1, 0, 0, 0, 0, 1, 0, 5]], []) ∧
      extractFuel 10 (0 :: [2, 1, 0, 0, 0, 0, 1, 0, 5]) =
        extract (0 :: [2, 1, 0, 0, 0, 0, 1, 0, 5]) := by
  refine ⟨by decide, ?_, ?_, ?_⟩
  · exact (codec_resync_and_termination 0 [2, 1, 0, 0, 0, 0, 1, 0, 5]
      [2, 1, 0, 0, 0, 0, 1, 0, 5] (by decide)).1 (by decide)
  · exact (codec_resync_and_termination 0 [2, 1, 0, 0, 0, 0, 1, 0, 5]
      [2, 1, 0, 0, 0, 0, 1, 0, 5] (by decide)).2.1 (by decide) (by decide)
  · exact (codec_resync_and_termination 0 [2, 1, 0, 0, 0, 0, 1, 0, 5]
      [2, 1, 0, 0, 0, 0, 1, 0, 5] (by decide)).2.2 10 (by decide)

/-- C5: on the socket `close` event the client sets `connected := false`,
clears the pending map, releases the socket handle (so the `connect()` guard
passes again), and the emitted actions are exactly one `CONNECTION_CLOSED`
rejection per previously pending entry — in particular each caller token is
rejected exactly as many times as it had pending entries, and nothing is
left pending. -/
theorem close_rejects_all_pending :
    ∀ (st : ClientState) (tok : Nat),
      (step st Ev.close).1.connected = false ∧
      (step st Ev.close).1.pending = [] ∧
      connectAllowed (step st Ev.close).1 = true ∧
      (step st Ev.close).2 = st.pending.map
        (fun p => Action.settle p.2.tok (Outcome.rejected RejectCode.connectionClosed)) ∧
      countSettles tok (step st Ev.close).2 =
        (st.pending.filter (fun p => p.2.tok == tok)).length := by
  intro st tok
  refine ⟨rfl, rfl, rfl, rfl, ?_⟩
  show countSettles tok (st.pending.map _) = _
  unfold countSettles
  rw [List.filter_map, List.length_map]
  exact congrArg List.length (List.filter_congr (fun p _ => rfl))

/-- C6: `readMemory` and `writeMemory` validate locally and synchronously:
out-of-range start or end addresses reject with `INVALID_ADDRESS`, a
reversed range with `INVALID_RANGE`, an empty write payload with
`INVALID_DATA`, and a write running past `0x10000` with `INVALID_RANGE`; an
`error` result means the command was never built or sent (zero bytes
written, no pending call registered), while for all valid inputs the command
is sent with its encoded body. -/
theorem memory_commands_validate_locally :
    ∀ (s e a : Int) (data : List Nat) (m : Nat),
      ((s < 0 ∨ 0xffff < s ∨ e < 0 ∨ 0xffff < e) →
        readMemoryCmd s e m = Except.error LocalErr.invalidAddress) ∧
      (0 ≤ s → s ≤ 0xffff → 0 ≤ e → e ≤ 0xffff → e < s →
        readMemoryCmd s e m = Except.error LocalErr.invalidRange) ∧
      (0 ≤ s → s ≤ e → e ≤ 0xffff →
        readMemoryCmd s e m = Except.ok (Command.MemoryGet,
          [0] ++ uint16LE s.toNat ++ [m] ++ uint16LE e.toNat,
          some ResponseType.MemoryGet)) ∧
      (0 ≤ a → a ≤ 0xffff → data = [] →
        writeMemoryCmd a data m = Except.error LocalErr.invalidData) ∧
      (0 ≤ a → a ≤ 0xffff → data ≠ [] → (0x10000 : Int) < a + data.length →
        writeMemoryCmd a data m = Except.error LocalErr.invalidRange) ∧
      (0 ≤ a → data ≠ [] → (a + data.length : Int) ≤ 0x10000 →
        writeMemoryCmd a data m = Except.ok (Command.MemorySet,
          [0] ++ uint16LE a.toNat ++ [m] ++ [(data.length - 1) % 256] ++ data)) := by
  intro s e a data m
  have hlen : data ≠ [] → 1 ≤ data.length := fun h =>
    Nat.one_le_iff_ne_zero.mpr (fun h0 => h (List.length_eq_zero.mp h0))
  refine ⟨?_, ?_, ?_, ?_, ?_, ?_⟩
  · intro h
    unfold readMemoryCmd
    split_ifs with h1 h2 h3
    · rfl
    · rfl
    · exfalso; simp at h1 h2; rcases h with h | h | h | h <;> omega
    · exfalso; simp at h1 h2; rcases h with h | h | h | h <;> omega
  · intro hs0 hs1 he0 he1 hlt
    unfold readMemoryCmd
    split_ifs with h1 h2
    · exfalso; simp at h1; rcases h1 with h | h <;> omega
    · exfalso; simp at h2; rcases h2 with h | h <;> omega
    · rfl
  · intro hs0 hse he1
    unfold readMemoryCmd
    split_ifs with h1 h2 h3
    · exfalso; simp at h1; rcases h1 with h | h <;> omega
    · exfalso; simp at h2; rcases h2 with h | h <;> omega
    · exfalso; simp at h3; omega
    · rfl
  · intro ha0 ha1 hd
    subst hd
    unfold writeMemoryCmd
    split_ifs with h1 h2
    · exfalso; simp at h1; rcases h1 with h | h <;> omega
    · rfl
    · simp at h2
    · simp at h2
  · intro ha0 ha1 hd hbig
    unfold writeMemoryCmd
    split_ifs with h1 h2
    · exfalso; simp at h1; rcases h1 with h | h <;> omega
    · exact absurd (List.length_eq_zero.mp h2) hd
    · rfl
  · intro ha0 hd hfit
    unfold writeMemoryCmd
    split_ifs with h1 h2 h3
    · exfalso; simp at h1; have := hlen hd; rcases h1 with h | h <;> omega
    · exact absurd (List.length_eq_zero.mp h2) hd
    · exfalso; simp only [decide_eq_true_eq] at h3; omega
    · rfl

/-- Witness for C6: concrete invalid and valid inputs taking each branch. -/
theorem memory_commands_validate_locally_witness :
    ((-1 : Int) < 0) ∧
      readMemoryCmd (-1) 5 0 = Except.error LocalErr.invalidAddress ∧
      readMemoryCmd 10 5 0 = Except.error LocalErr.invalidRange ∧
      readMemoryCmd 0x0400 0x0427 0 = Except.ok (Command.MemoryGet,
        [0] ++ uint16LE 0x0400 ++ [0] ++ uint16LE 0x0427,
        some ResponseType.MemoryGet) ∧
      writeMemoryCmd 0 [] 0 = Except.error LocalErr.invalidData ∧
      writeMemoryCmd 0xffff [1, 2] 0 = Except.error LocalErr.invalidRange ∧
      writeMemoryCmd 0xc000 [9] 0 = Except.ok (Command.MemorySet,
        [0] ++ uint16LE 0xc000 ++ [0] ++ [0] ++ [9]) :=
  ⟨by decide,
    (memory_commands_validate_locally (-1) 5 (-1) [] 0).1 (Or.inl (by decide)),
    (memory_commands_validate_locally 10 5 (-1) [] 0).2.1
      (by decide) (by decide) (by decide) (by decide) (by decide),
    (memory_commands_validate_locally 0x0400 0x0427 (-1) [] 0).2.2.1
      (by decide) (by decide) (by decide),
    (memory_commands_validate_locally (-1) 5 0 [] 0).2.2.2.1
      (by decide) (by decide) rfl,
    (memory_commands_validate_locally (-1) 5 0xffff [1, 2] 0).2.2.2.2.1
      (by decide) (by decide) (by decide) (by decide),
    (memory_commands_validate_locally (-1) 5 0xc000 [9] 0).2.2.2.2.2
      (by decide) (by decide) (by decide)⟩

/-- C10: every payload of length `L ≥ 1` with `address + L ≤ 0x10000` passes
`writeMemory` validation; the single-byte length field of the request body is
`(L - 1) % 256` (the `Buffer` write truncates to one byte) while all `L`
payload bytes are appended, so for `L = 257` the field is `0x00` and for
every `L > 256` the field disagrees with the actual payload length. -/
theorem writeMemory_length_field_truncation :
    ∀ (a : Int) (data : List Nat) (m : Nat),
      0 ≤ a → 1 ≤ data.length → (a + data.length : Int) ≤ 0x10000 →
      writeMemoryCmd a data m = Except.ok (Command.MemorySet,
        [0] ++ uint16LE a.toNat ++ [m] ++ [(data.length - 1) % 256] ++ data) ∧
      ([0] ++ uint16LE a.toNat ++ [m] ++ [(data.length - 1) % 256] ++ data).getD 4 0 =
        (data.length - 1) % 256 ∧
      ([0] ++ uint16LE a.toNat ++ [m] ++ [(data.length - 1) % 256] ++ data).drop 5 =
        data ∧
      ([0] ++ uint16LE a.toNat ++ [m] ++ [(data.length - 1) % 256] ++ data).length =
        5 + data.length ∧
      (data.length = 257 → (data.length - 1) % 256 = 0) ∧
      (256 < data.length → (data.length - 1) % 256 ≠ data.length - 1) := by
  intro a data m ha0 h1 hfit
  have hd : data ≠ [] := by
    intro h
    subst h
    simp at h1
  refine ⟨?_, rfl, rfl, ?_, ?_, ?_⟩
  · unfold writeMemoryCmd
    split_ifs with hc1 hc2 hc3
    · exfalso; simp at hc1; rcases hc1 with h | h <;> omega
    · exact absurd (List.length_eq_zero.mp hc2) hd
    · exfalso; simp only [decide_eq_true_eq] at hc3; omega
    · rfl
  · simp [uint16LE]
    omega
  · intro h257
    rw [h257]
  · intro hbig
    have hm : (data.length - 1) % 256 < 256 := Nat.mod_lt _ (by omega)
    omega

/-- Witness for C10: a 257-byte payload at address 0 passes validation and
its encoded length byte is 0. -/
theorem writeMemory_length_field_truncation_witness :
    ((0 : Int) ≤ 0) ∧ (1 ≤ (List.replicate 257 9).length) ∧
      ((0 : Int) + (List.replicate 257 9).length ≤ 0x10000) ∧
      writeMemoryCmd 0 (List.replicate 257 9) 0 = Except.ok (Command.MemorySet,
        [0] ++ uint16LE (0 : Int).toNat ++ [0] ++
          [((List.replicate 257 9).length - 1) % 256] ++ List.replicate 257 9) ∧
      ((List.replicate 257 9).length - 1) % 256 = 0 :=
  ⟨le_rfl, by norm_num [List.length_replicate], by norm_num [List.length_replicate],
    (writeMemory_length_field_truncation 0 (List.replicate 257 9) 0
      le_rfl (by norm_num [List.length_replicate])
      (by norm_num [List.length_replicate])).1,
    (writeMemory_length_field_truncation 0 (List.replicate 257 9) 0
      le_rfl (by norm_num [List.length_replicate])
      (by norm_num [List.length_replicate])).2.2.2.2.1
      (by norm_num [List.length_replicate])⟩

lemma lookup_mapDelete {α : Type} (m : List (Nat × α)) (k : Nat) :
    (mapDelete m k).lookup k = none := by
  induction m with
  | nil => rfl
  | cons a as ih =>
    unfold mapDelete at ih ⊢
    rw [List.filter_cons]
    by_cases h : a.1 = k
    · rw [if_neg (by simp [h])]
      exact ih
    · have hbne : (a.1 != k) = true := by simp [h]
      rw [if_pos hbne]
      have hke : (k == a.1) = false := beq_eq_false_iff_ne.mpr (Ne.symm h)
      simp [List.lookup, hke, ih]

/-- C8: `deleteBreakpoint` performs no local lookup-based validation — for
every id, present in the local checkpoint map or not, it builds and sends the
4-byte `CheckpointDelete` request and raises no local error, and afterwards
the id is absent from the local map; `setWatchpoint 0xD020 0xD020 store`
followed immediately by `deleteBreakpoint` of the peer-returned id leaves the
local checkpoint map empty. -/
theorem deleteBreakpoint_unconditional :
    ∀ (cps : List (Nat × CheckpointInfo)) (checkpointId rid : Nat)
      (enabled stop temporary : Bool),
      (deleteBreakpointCmd cps checkpointId).1 =
        (Command.CheckpointDelete, uint32LE checkpointId) ∧
      (deleteBreakpointCmd cps checkpointId).2.lookup checkpointId = none ∧
      (∀ body cps',
        setWatchpointCmd [] 0xD020 0xD020 WatchType.store enabled stop temporary rid =
          Except.ok (body, cps') →
        (deleteBreakpointCmd cps' rid).2 = []) := by
  intro cps checkpointId rid enabled stop temporary
  refine ⟨rfl, lookup_mapDelete cps checkpointId, ?_⟩
  intro body cps' hok
  have hcomp : setWatchpointCmd [] 0xD020 0xD020 WatchType.store
      enabled stop temporary rid =
      Except.ok (uint16LE 53280 ++ uint16LE 53280 ++
        [if stop then 1 else 0, if enabled then 1 else 0, CheckpointOp.Store,
          if temporary then 1 else 0],
        [(rid, (⟨rid, 53280, 53280, enabled, temporary,
          CheckpointType.store⟩ : CheckpointInfo))]) := rfl
  rw [hcomp] at hok
  have hpair := Except.ok.inj hok
  have hcps : cps' = [(rid, (⟨rid, 53280, 53280, enabled, temporary,
      CheckpointType.store⟩ : CheckpointInfo))] := (Prod.ext_iff.mp hpair).2.symm
  subst hcps
  simp [deleteBreakpointCmd, mapDelete]

/-- Witness for C8: deleting id 3 from a map that does not contain it, and
the concrete watchpoint-then-delete scenario at id 7. -/
theorem deleteBreakpoint_unconditional_witness :
    (deleteBreakpointCmd [] 3).1 = (Command.CheckpointDelete, uint32LE 3) ∧
      (deleteBreakpointCmd [] 3).2.lookup 3 = none ∧
      (deleteBreakpointCmd
        [(7, (⟨7, 53280, 53280, true, false,
          CheckpointType.store⟩ : CheckpointInfo))] 7).2 = [] := by
  refine ⟨(deleteBreakpoint_unconditional [] 3 7 true true false).1,
    (deleteBreakpoint_unconditional [] 3 7 true true false).2.1,
    (deleteBreakpoint_unconditional [] 3 7 true true false).2.2 _ _ rfl⟩

lemma nextRequestId_eq_mod (n : Nat) : nextRequestId n = (n + 1) % 256 := by
  unfold nextRequestId
  have h := Nat.and_pow_two_sub_one_eq_mod (n + 1) 8
  norm_num at h
  exact h

lemma iterate_nextRequestId : ∀ (k s : Nat), 1 ≤ k →
    Nat.iterate nextRequestId k s = (s + k) % 256 := by
  intro k
  induction k with
  | zero => omega
  | succ k ih =>
    intro s hk
    cases Nat.eq_zero_or_pos k with
    | inl h0 =>
      subst h0
      show nextRequestId (Nat.iterate nextRequestId 0 s) = (s + 1) % 256
      rw [show Nat.iterate nextRequestId 0 s = s from rfl, nextRequestId_eq_mod]
    | inr hpos =>
      rw [Function.iterate_succ_apply', ih s hpos, nextRequestId_eq_mod]
      omega

/-- C9: the request-id allocator returns `(previous + 1) % 256`, cycling
through the full 8-bit space — from any counter value some positive number
of consecutive allocations returns `0xff`, the value `handleResponse` treats
as the async sentinel; a frame carrying request id `0xff` is never matched
by direct id lookup: even a pending entry registered under key `0xff` is
only settled through the expected-kind scan (an entry with no matching
expected kind is left untouched and the frame is dropped). -/
theorem requestId_wraps_into_sentinel :
    (∀ n : Nat, nextRequestId n = (n + 1) % 256) ∧
    (∀ s : Nat, 1 ≤ 511 - s % 256 ∧
      Nat.iterate nextRequestId (511 - s % 256) s = 0xff) ∧
    (∀ (pending : List (Nat × PendingEntry)) (r : ViceResponse),
      r.requestId = 0xff →
      (∀ p ∈ pending, p.2.expectedResponseType ≠ some r.responseType) →
      correlate pending r = (pending, [])) := by
  refine ⟨nextRequestId_eq_mod, ?_, ?_⟩
  · intro s
    have hm : s % 256 < 256 := Nat.mod_lt _ (by omega)
    refine ⟨by omega, ?_⟩
    rw [iterate_nextRequestId _ _ (by omega)]
    omega
  · intro pending r hreq hnone
    unfold correlate
    rw [if_pos hreq]
    have hfind : pending.find?
        (fun p => p.2.expectedResponseType == some r.responseType) = none := by
      rw [List.find?_eq_none]
      intro p hp
      simpa using hnone p hp
    rw [hfind]

/-- Witness for C9: a frame with the sentinel id `0xff` does not settle a
pending entry registered under key `0xff` whose expected kind is absent. -/
theorem requestId_wraps_into_sentinel_witness :
    ((⟨0x31, 0, 0xff, []⟩ : ViceResponse).requestId = 0xff) ∧
      (∀ p ∈ [((0xff : Nat), (⟨5, none⟩ : PendingEntry))],
        p.2.expectedResponseType ≠
          some (⟨0x31, 0, 0xff, []⟩ : ViceResponse).responseType) ∧
      correlate [(0xff, ⟨5, none⟩)] ⟨0x31, 0, 0xff, []⟩ =
        ([(0xff, ⟨5, none⟩)], []) :=
  ⟨rfl, by decide,
    requestId_wraps_into_sentinel.2.2 [(0xff, ⟨5, none⟩)] ⟨0x31, 0, 0xff, []⟩
      rfl (by decide)⟩

/-- C7: for a frame of the `Stopped` (resp. `Resumed`) kind,
`handleResponse` first sets `running` to false (resp. true) and emits the
`onStopped` (resp. `onResumed`) event, and only then the correlation
actions; a single frame can both change the running state and resolve an
in-flight command expecting that kind, as the concrete `Stopped` sentinel
frame against a pending call expecting `Stopped` shows. -/
theorem state_change_before_matching :
    ∀ (st : CorrState) (r : ViceResponse) (tok rid : Nat),
      (r.responseType = ResponseType.Stopped →
        (handleResponse st r).1.running = false ∧
        (handleResponse st r).2 = Action.onStopped r :: (correlate st.pending r).2 ∧
        (handleResponse st r).1.pending = (correlate st.pending r).1) ∧
      (r.responseType = ResponseType.Resumed →
        (handleResponse st r).1.running = true ∧
        (handleResponse st r).2 = Action.onResumed r :: (correlate st.pending r).2 ∧
        (handleResponse st r).1.pending = (correlate st.pending r).1) ∧
      handleResponse ⟨[(rid, ⟨tok, some ResponseType.Stopped⟩)], st.running⟩
          ⟨ResponseType.Stopped, ErrorCode.Ok, 0xff, []⟩ =
        (⟨[], false⟩,
          [Action.onStopped ⟨ResponseType.Stopped, ErrorCode.Ok, 0xff, []⟩,
            Action.settle tok
              (Outcome.resolved ⟨ResponseType.Stopped, ErrorCode.Ok, 0xff, []⟩)]) := by
  intro st r tok rid
  refine ⟨?_, ?_, ?_⟩
  · intro h
    simp [handleResponse, h, ResponseType.Stopped, ResponseType.Resumed]
  · intro h
    simp [handleResponse, h, ResponseType.Stopped, ResponseType.Resumed]
  · simp [handleResponse, correlate, settleOf, mapDelete, ResponseType.Stopped,
      ResponseType.Resumed, ErrorCode.Ok, List.find?, List.filter]

/-- Witness for C7: instantiation at the `Stopped` sentinel frame and at a
`Resumed` frame. -/
theorem state_change_before_matching_witness :
    ((⟨0x62, 0, 7, []⟩ : ViceResponse).responseType = ResponseType.Stopped) ∧
      (handleResponse ⟨[], true⟩ ⟨0x62, 0, 7, []⟩).1.running = false ∧
      ((⟨0x63, 0, 7, []⟩ : ViceResponse).responseType = ResponseType.Resumed) ∧
      (handleResponse ⟨[], false⟩ ⟨0x63, 0, 7, []⟩).1.running = true :=
  ⟨rfl,
    ((state_change_before_matching ⟨[], true⟩ ⟨0x62, 0, 7, []⟩ 0 0).1 rfl).1,
    rfl,
    ((state_change_before_matching ⟨[], false⟩ ⟨0x63, 0, 7, []⟩ 0 0).2.1 rfl).1⟩

lemma mapDelete_of_not_mem_keys {α : Type} (m : List (Nat × α)) (k : Nat)
    (h : k ∉ m.map Prod.fst) : mapDelete m k = m := by
  unfold mapDelete
  apply List.filter_eq_self.mpr
  intro p hp
  have : p.1 ∈ m.map Prod.fst := List.mem_map.mpr ⟨p, hp, rfl⟩
  simp only [bne_iff_ne, ne_eq]
  intro he
  exact h (he ▸ this)

lemma correlate_sentinel_eq_scan :
    ∀ (pending : List (Nat × PendingEntry)) (r : ViceResponse),
      r.requestId = 0xff → (pending.map Prod.fst).Nodup →
      correlate pending r = asyncScanSpec pending r := by
  intro pending r hreq
  induction pending with
  | nil =>
    intro _
    unfold correlate asyncScanSpec
    rw [if_pos hreq]
    rfl
  | cons p rest ih =>
    intro hnd
    rw [List.map_cons, List.nodup_cons] at hnd
    obtain ⟨hp1, hrest⟩ := hnd
    unfold correlate
    rw [if_pos hreq]
    by_cases hp : p.2.expectedResponseType = some r.responseType
    · rw [List.find?_cons_of_pos _ (by simpa using hp)]
      unfold asyncScanSpec
      rw [if_pos hp]
      have hdel : mapDelete (p :: rest) p.1 = rest := by
        unfold mapDelete
        rw [List.filter_cons, if_neg (by simp)]
        exact mapDelete_of_not_mem_keys rest p.1 hp1
      show (mapDelete (p :: rest) p.1, [settleOf p.2 r]) = (rest, [settleOf p.2 r])
      rw [hdel]
    · rw [List.find?_cons_of_neg _ (by simpa using hp)]
      have ihr : correlate rest r = asyncScanSpec rest r := ih hrest
      unfold correlate at ihr
      rw [if_pos hreq] at ihr
      unfold asyncScanSpec
      rw [if_neg hp, ← ihr]
      cases hfind : rest.find?
          (fun q => q.2.expectedResponseType == some r.responseType) with
      | none => simp only [hfind]
      | some q =>
        simp only [hfind]
        have hqmem : q ∈ rest := List.mem_of_find?_eq_some hfind
        have hq1 : p.1 ≠ q.1 := by
          intro he
          exact hp1 (he ▸ List.mem_map.mpr ⟨q, hqmem, rfl⟩)
        have hdel : mapDelete (p :: rest) q.1 = p :: mapDelete rest q.1 := by
          unfold mapDelete
          rw [List.filter_cons, if_pos (by simpa using hq1)]
        rw [hdel]

lemma asyncScanSpec_no_match :
    ∀ (pending : List (Nat × PendingEntry)) (r : ViceResponse),
      (∀ p ∈ pending, p.2.expectedResponseType ≠ some r.responseType) →
      asyncScanSpec pending r = (pending, []) := by
  intro pending r
  induction pending with
  | nil => intro _; rfl
  | cons p rest ih =>
    intro h
    unfold asyncScanSpec
    rw [if_neg (h p (List.mem_cons_self p rest))]
    rw [ih (fun q hq => h q (List.mem_cons_of_mem p hq))]

lemma correlate_acts_settleOf :
    ∀ (pending : List (Nat × PendingEntry)) (r : ViceResponse),
      ∀ a ∈ (correlate pending r).2, ∃ e : PendingEntry, a = settleOf e r := by
  intro pending r a ha
  unfold correlate at ha
  by_cases hreq : r.requestId = 0xff
  · rw [if_pos hreq] at ha
    cases hfind : pending.find?
        (fun q => q.2.expectedResponseType == some r.responseType) with
    | none => rw [hfind] at ha; simp at ha
    | some q =>
      rw [hfind] at ha
      simp only [List.mem_singleton] at ha
      exact ⟨q.2, ha⟩
  · rw [if_neg hreq] at ha
    cases hlk : pending.lookup r.requestId with
    | none => rw [hlk] at ha; simp at ha
    | some e =>
      rw [hlk] at ha
      simp only [List.mem_singleton] at ha
      exact ⟨e, ha⟩

/-- C1: for every frame carrying the async sentinel request id `0xff`, the
correlator does not match by id: it scans the pending map in insertion
(FIFO) order and settles the oldest entry whose `expectedResponseType`
equals the frame's kind, removing exactly that entry (the behaviour of
`correlate` coincides with the sequential scan `asyncScanSpec`); every
emitted settlement resolves on an `Ok` status and rejects otherwise, and if
no pending entry has a matching expected kind the frame is dropped — the
pending map is unchanged and nothing is resolved or rejected. -/
theorem async_sentinel_fifo_matching :
    ∀ (pending : List (Nat × PendingEntry)) (r : ViceResponse),
      r.requestId = 0xff → (pending.map Prod.fst).Nodup →
      correlate pending r = asyncScanSpec pending r ∧
      ((∀ p ∈ pending, p.2.expectedResponseType ≠ some r.responseType) →
        correlate pending r = (pending, [])) ∧
      (r.errorCode ≠ ErrorCode.Ok → ∀ a ∈ (correlate pending r).2,
        ∃ t, a = Action.settle t
          (Outcome.rejected (RejectCode.viceError r.errorCode))) ∧
      (r.errorCode = ErrorCode.Ok → ∀ a ∈ (correlate pending r).2,
        ∃ t, a = Action.settle t (Outcome.resolved r)) := by
  intro pending r hreq hnd
  refine ⟨correlate_sentinel_eq_scan pending r hreq hnd, ?_, ?_, ?_⟩
  · intro hno
    rw [correlate_sentinel_eq_scan pending r hreq hnd]
    exact asyncScanSpec_no_match pending r hno
  · intro herr a ha
    obtain ⟨e, he⟩ := correlate_acts_settleOf pending r a ha
    exact ⟨e.tok, by rw [he]; unfold settleOf; rw [if_pos herr]⟩
  · intro hok a ha
    obtain ⟨e, he⟩ := correlate_acts_settleOf pending r a ha
    exact ⟨e.tok, by rw [he]; unfold settleOf; rw [if_neg (not_not_intro hok)]⟩

/-- Witness for C1: a sentinel frame of kind `RegisterInfo` settles the
older of two matching pending calls and removes exactly its entry. -/
theorem async_sentinel_fifo_matching_witness :
    ((⟨0x31, 0, 0xff, []⟩ : ViceResponse).requestId = 0xff) ∧
      (([((3 : Nat), (⟨10, some 0x31⟩ : PendingEntry)),
        (4, ⟨11, some 0x31⟩)].map Prod.fst).Nodup) ∧
      correlate [(3, ⟨10, some 0x31⟩), (4, ⟨11, some 0x31⟩)]
          ⟨0x31, 0, 0xff, []⟩ =
        asyncScanSpec [(3, ⟨10, some 0x31⟩), (4, ⟨11, some 0x31⟩)]
          ⟨0x31, 0, 0xff, []⟩ :=
  ⟨rfl, by decide,
    (async_sentinel_fifo_matching
      [(3, ⟨10, some 0x31⟩), (4, ⟨11, some 0x31⟩)]
      ⟨0x31, 0, 0xff, []⟩ rfl (by decide)).1⟩

lemma countSettles_append (tok : Nat) (a b : List Action) :
    countSettles tok (a ++ b) = countSettles tok a + countSettles tok b := by
  unfold countSettles
  rw [List.filter_append, List.length_append]

lemma countSettles_settle (tok t : Nat) (o : Outcome) :
    countSettles tok [Action.settle t o] = if t = tok then 1 else 0 := by
  unfold countSettles
  by_cases h : t = tok <;> simp [h]

lemma lookup_mem {α : Type} : ∀ {m : List (Nat × α)} {k : Nat} {v : α},
    m.lookup k = some v → (k, v) ∈ m := by
  intro m
  induction m with
  | nil => intro k v h; cases h
  | cons a as ih =>
    intro k v h
    by_cases hk : k = a.1
    · have hbeq : (k == a.1) = true := beq_iff_eq.mpr hk
      rw [List.lookup, hbeq] at h
      have hv : v = a.2 := (Option.some.inj h).symm
      subst hk
      subst hv
      exact List.mem_cons_self _ _
    · have hbeq : (k == a.1) = false := beq_eq_false_iff_ne.mpr hk
      rw [List.lookup, hbeq] at h
      exact List.mem_cons_of_mem _ (ih h)

lemma lookup_none_iff {α : Type} : ∀ (m : List (Nat × α)) (k : Nat),
    m.lookup k = none ↔ k ∉ m.map Prod.fst := by
  intro m
  induction m with
  | nil => intro k; simp [List.lookup]
  | cons a as ih =>
    intro k
    by_cases hk : k = a.1
    · have hbeq : (k == a.1) = true := beq_iff_eq.mpr hk
      rw [List.lookup, hbeq]
      simp [hk]
    · have hbeq : (k == a.1) = false := beq_eq_false_iff_ne.mpr hk
      rw [List.lookup, hbeq]
      simp [hk, ih]

lemma nodup_lookup {α : Type} : ∀ {m : List (Nat × α)} {k : Nat} {v : α},
    (m.map Prod.fst).Nodup → (k, v) ∈ m → m.lookup k = some v := by
  intro m
  induction m with
  | nil => intro k v _ h; cases h
  | cons a as ih =>
    intro k v hnd hm
    rw [List.map_cons, List.nodup_cons] at hnd
    obtain ⟨ha, hnd'⟩ := hnd
    rcases List.mem_cons.mp hm with he | hmem
    · have h1 : k = a.1 := congrArg Prod.fst he
      have h2 : v = a.2 := congrArg Prod.snd he
      subst h1
      subst h2
      rw [List.lookup, beq_self_eq_true]
    · have hk : k ≠ a.1 := by
        intro he
        exact ha (he ▸ List.mem_map.mpr ⟨(k, v), hmem, rfl⟩)
      rw [List.lookup, beq_eq_false_iff_ne.mpr hk]
      exact ih hnd' hmem

lemma nodup_fst_eq {α : Type} {m : List (Nat × α)} {k : Nat} {a b : α}
    (hnd : (m.map Prod.fst).Nodup) (h1 : (k, a) ∈ m) (h2 : (k, b) ∈ m) :
    a = b := by
  have ha := nodup_lookup hnd h1
  have hb := nodup_lookup hnd h2
  exact Option.some.inj (ha.symm.trans hb)

lemma nodup_snd_eq {α : Type} : ∀ {m : List (α × Nat)} {k : Nat} {a b : α},
    (m.map Prod.snd).Nodup → (a, k) ∈ m → (b, k) ∈ m → a = b := by
  intro m
  induction m with
  | nil => intro k a b _ h; cases h
  | cons x xs ih =>
    intro k a b hnd h1 h2
    rw [List.map_cons, List.nodup_cons] at hnd
    obtain ⟨hx, hnd'⟩ := hnd
    rcases List.mem_cons.mp h1 with he1 | hm1 <;>
      rcases List.mem_cons.mp h2 with he2 | hm2
    · have := he1.trans he2.symm
      exact congrArg Prod.fst this
    · exfalso
      have hk : k = x.2 := congrArg Prod.snd he1
      exact hx (hk ▸ List.mem_map.mpr ⟨(b, k), hm2, rfl⟩)
    · exfalso
      have hk : k = x.2 := congrArg Prod.snd he2
      exact hx (hk ▸ List.mem_map.mpr ⟨(a, k), hm1, rfl⟩)
    · exact ih hnd' hm1 hm2

lemma mem_mapDelete {α : Type} {m : List (Nat × α)} {k : Nat} {p : Nat × α} :
    p ∈ mapDelete m k ↔ p ∈ m ∧ p.1 ≠ k := by
  unfold mapDelete
  rw [List.mem_filter]
  simp

lemma keys_mapDelete_sublist {α : Type} (m : List (Nat × α)) (k : Nat) :
    List.Sublist ((mapDelete m k).map Prod.fst) (m.map Prod.fst) :=
  List.Sublist.map Prod.fst (List.filter_sublist m)

lemma mapSet_fresh {α : Type} (m : List (Nat × α)) (k : Nat) (v : α)
    (h : m.lookup k = none) : mapSet m k v = m ++ [(k, v)] := by
  unfold mapSet
  rw [h]
  rfl

lemma filter_eq_singleton_of_unique {α : Type} :
    ∀ (l : List (Nat × α)) (pred : Nat × α → Bool) (x : Nat × α),
      (l.map Prod.fst).Nodup → x ∈ l → pred x = true →
      (∀ p ∈ l, pred p = true → p = x) → l.filter pred = [x] := by
  intro l
  induction l with
  | nil => intro pred x _ hx; cases hx
  | cons a as ih =>
    intro pred x hnd hx hpx huniq
    rw [List.map_cons, List.nodup_cons] at hnd
    obtain ⟨ha, hnd'⟩ := hnd
    rw [List.filter_cons]
    rcases List.mem_cons.mp hx with hax | hax
    · subst hax
      rw [if_pos hpx]
      have hnil : as.filter pred = [] := by
        rw [List.filter_eq_nil_iff]
        intro p hp hpp
        have := huniq p (List.mem_cons_of_mem _ hp) hpp
        subst this
        exact ha (List.mem_map.mpr ⟨p, hp, rfl⟩)
      rw [hnil]
    · have hax' : a ≠ x := by
        intro he
        apply ha
        rw [he]
        exact List.mem_map.mpr ⟨x, hax, rfl⟩
      rw [if_neg (by
        intro hpa
        exact hax' (huniq a (List.mem_cons_self a as) hpa))]
      exact ih pred x hnd' hax hpx
        (fun p hp hpp => huniq p (List.mem_cons_of_mem _ hp) hpp)

lemma correlate_cases (pending : List (Nat × PendingEntry)) (r : ViceResponse) :
    correlate pending r = (pending, []) ∨
    ∃ k e, (k, e) ∈ pending ∧
      correlate pending r = (mapDelete pending k, [settleOf e r]) := by
  unfold correlate
  by_cases hreq : r.requestId = 0xff
  · rw [if_pos hreq]
    cases hfind : pending.find?
        (fun q => q.2.expectedResponseType == some r.responseType) with
    | none => exact Or.inl rfl
    | some q =>
      exact Or.inr ⟨q.1, q.2, List.mem_of_find?_eq_some hfind, rfl⟩
  · rw [if_neg hreq]
    cases hlk : pending.lookup r.requestId with
    | none => exact Or.inl rfl
    | some e => exact Or.inr ⟨r.requestId, e, lookup_mem hlk, rfl⟩

lemma countSettles_frame (st : ClientState) (r : ViceResponse) (tok : Nat) :
    countSettles tok (step st (Ev.frame r)).2 =
      countSettles tok (correlate st.pending r).2 := by
  show countSettles tok (handleResponse ⟨st.pending, st.running⟩ r).2 = _
  unfold handleResponse
  by_cases h1 : r.responseType = 0x62 <;>
    by_cases h2 : r.responseType = 0x63 <;>
      simp [h1, h2, ResponseType.Stopped, ResponseType.Resumed,
        countSettles_append, countSettles]

lemma countSettles_close (st : ClientState) (tok : Nat) :
    countSettles tok (step st Ev.close).2 =
      (st.pending.filter (fun p => p.2.tok == tok)).length := by
  show countSettles tok (st.pending.map _) = _
  unfold countSettles
  rw [List.filter_map, List.length_map]
  exact congrArg List.length (List.filter_congr (fun p _ => rfl))

lemma notMem_pendingToks_filter (st : ClientState) (tok : Nat)
    (h : tok ∉ pendingToks st) :
    st.pending.filter (fun p => p.2.tok == tok) = [] := by
  rw [List.filter_eq_nil_iff]
  intro p hp hb
  exact h (List.mem_map.mpr ⟨p, hp, beq_iff_eq.mp hb⟩)

lemma close_phaseFree (st : ClientState) (tok : Nat) (h : PhaseFree st tok) :
    PhaseFree (step st Ev.close).1 tok ∧ countSettles tok (step st Ev.close).2 = 0 := by
  refine ⟨⟨h.1, by simp [pendingToks, step]⟩, ?_⟩
  rw [countSettles_close, notMem_pendingToks_filter st tok h.2]
  rfl

lemma close_phaseLive (st : ClientState) (tok : Nat) (g : Ginv st)
    (h : PhaseLive st tok) :
    PhaseSettledArmed (step st Ev.close).1 tok ∧
      countSettles tok (step st Ev.close).2 = 1 := by
  obtain ⟨rid, ent, harm, hpend, htok, huniq⟩ := h
  refine ⟨⟨rid, harm, by simp [step], by simp [pendingToks, step]⟩, ?_⟩
  have hfil : st.pending.filter (fun p => p.2.tok == tok) = [(rid, ent)] :=
    filter_eq_singleton_of_unique st.pending (fun p => p.2.tok == tok)
      (rid, ent) g.1 hpend (beq_iff_eq.mpr htok)
      (fun p hp hb => huniq p hp (beq_iff_eq.mp hb))
  rw [countSettles_close, hfil]
  rfl

lemma close_phaseSettled (st : ClientState) (tok : Nat)
    (h : PhaseSettledArmed st tok) :
    PhaseSettledArmed (step st Ev.close).1 tok ∧
      countSettles tok (step st Ev.close).2 = 0 := by
  obtain ⟨rid, harm, hnp, htok⟩ := h
  refine ⟨⟨rid, harm, by simp [step], by simp [pendingToks, step]⟩, ?_⟩
  rw [countSettles_close, notMem_pendingToks_filter st tok htok]
  rfl

lemma Ginv_close (st : ClientState) (h : Ginv st) : Ginv (step st Ev.close).1 := by
  obtain ⟨g1, g2, g3, g4⟩ := h
  exact ⟨by simp [step], g2, g3, by simp [step]⟩

lemma frame_phaseFree (st : ClientState) (r : ViceResponse) (tok : Nat)
    (h : PhaseFree st tok) :
    PhaseFree (step st (Ev.frame r)).1 tok ∧
      countSettles tok (step st (Ev.frame r)).2 = 0 := by
  have harm : armedToks (step st (Ev.frame r)).1 = armedToks st := rfl
  have hpend : (step st (Ev.frame r)).1.pending = (correlate st.pending r).1 := rfl
  rw [countSettles_frame]
  rcases correlate_cases st.pending r with hc | ⟨k, e, hke, hc⟩
  · refine ⟨⟨h.1, ?_⟩, by rw [hc]; rfl⟩
    show tok ∉ ((step st (Ev.frame r)).1.pending.map (fun p => p.2.tok))
    rw [hpend, hc]
    exact h.2
  · have hetok : e.tok ≠ tok := by
      intro he
      exact h.2 (List.mem_map.mpr ⟨(k, e), hke, he⟩)
    refine ⟨⟨h.1, ?_⟩, ?_⟩
    · show tok ∉ ((step st (Ev.frame r)).1.pending.map (fun p => p.2.tok))
      rw [hpend, hc]
      intro hmem
      obtain ⟨p, hp, hptok⟩ := List.mem_map.mp hmem
      exact h.2 (List.mem_map.mpr ⟨p, (mem_mapDelete.mp hp).1, hptok⟩)
    · rw [hc]
      show countSettles tok [settleOf e r] = 0
      unfold settleOf
      split_ifs <;> rw [countSettles_settle, if_neg hetok]

lemma frame_phaseLive (st : ClientState) (r : ViceResponse) (tok : Nat)
    (g : Ginv st) (h : PhaseLive st tok) :
    (PhaseLive (step st (Ev.frame r)).1 tok ∧
      countSettles tok (step st (Ev.frame r)).2 = 0) ∨
    (PhaseSettledArmed (step st (Ev.frame r)).1 tok ∧
      countSettles tok (step st (Ev.frame r)).2 = 1) := by
  obtain ⟨rid, ent, harm, hpend, htok, huniq⟩ := h
  have hpend' : (step st (Ev.frame r)).1.pending = (correlate st.pending r).1 := rfl
  rw [countSettles_frame]
  rcases correlate_cases st.pending r with hc | ⟨k, e, hke, hc⟩
  · left
    refine ⟨⟨rid, ent, harm, ?_, htok, ?_⟩, by rw [hc]; rfl⟩
    · rw [hpend', hc]; exact hpend
    · rw [hpend', hc]; exact huniq
  · by_cases hetok : e.tok = tok
    · right
      have hkeq : (k, e) = (rid, ent) := huniq (k, e) hke hetok
      have hk : k = rid := congrArg Prod.fst hkeq
      subst hk
      refine ⟨⟨k, harm, ?_, ?_⟩, ?_⟩
      · intro e' he'
        rw [hpend', hc] at he'
        exact absurd rfl (mem_mapDelete.mp he').2
      · show tok ∉ ((step st (Ev.frame r)).1.pending.map (fun p => p.2.tok))
        rw [hpend', hc]
        intro hmem
        obtain ⟨p, hp, hptok⟩ := List.mem_map.mp hmem
        obtain ⟨hpmem, hpkey⟩ := mem_mapDelete.mp hp
        exact hpkey (congrArg Prod.fst (huniq p hpmem hptok))
      · rw [hc]
        show countSettles tok [settleOf e r] = 1
        unfold settleOf
        split_ifs <;> rw [countSettles_settle, if_pos hetok]
    · left
      have hkne : k ≠ rid := by
        intro he
        subst he
        have hee : e = ent := nodup_fst_eq g.1 hke hpend
        exact hetok (hee ▸ htok)
      refine ⟨⟨rid, ent, harm, ?_, htok, ?_⟩, ?_⟩
      · rw [hpend', hc]
        exact mem_mapDelete.mpr ⟨hpend, fun he => hkne he.symm⟩
      · rw [hpend', hc]
        intro p hp hptok
        exact huniq p (mem_mapDelete.mp hp).1 hptok
      · rw [hc]
        show countSettles tok [settleOf e r] = 0
        unfold settleOf
        split_ifs <;> rw [countSettles_settle, if_neg hetok]

lemma frame_phaseSettled (st : ClientState) (r : ViceResponse) (tok : Nat)
    (h : PhaseSettledArmed st tok) :
    PhaseSettledArmed (step st (Ev.frame r)).1 tok ∧
      countSettles tok (step st (Ev.frame r)).2 = 0 := by
  obtain ⟨rid, harm, hnp, htok⟩ := h
  have hpend' : (step st (Ev.frame r)).1.pending = (correlate st.pending r).1 := rfl
  rw [countSettles_frame]
  rcases correlate_cases st.pending r with hc | ⟨k, e, hke, hc⟩
  · refine ⟨⟨rid, harm, ?_, ?_⟩, by rw [hc]; rfl⟩
    · rw [hpend', hc]; exact hnp
    · show tok ∉ ((step st (Ev.frame r)).1.pending.map (fun p => p.2.tok))
      rw [hpend', hc]
      exact htok
  · have hetok : e.tok ≠ tok := by
      intro he
      exact htok (List.mem_map.mpr ⟨(k, e), hke, he⟩)
    refine ⟨⟨rid, harm, ?_, ?_⟩, ?_⟩
    · intro e' he'
      rw [hpend', hc] at he'
      exact hnp e' (mem_mapDelete.mp he').1
    · show tok ∉ ((step st (Ev.frame r)).1.pending.map (fun p => p.2.tok))
      rw [hpend', hc]
      intro hmem
      obtain ⟨p, hp, hptok⟩ := List.mem_map.mp hmem
      exact htok (List.mem_map.mpr ⟨p, (mem_mapDelete.mp hp).1, hptok⟩)
    · rw [hc]
      show countSettles tok [settleOf e r] = 0
      unfold settleOf
      split_ifs <;> rw [countSettles_settle, if_neg hetok]

lemma mem_armedToks {st : ClientState} {tok : Nat} :
    tok ∈ armedToks st ↔ ∃ rid, (tok, rid) ∈ st.armed := by
  unfold armedToks
  constructor
  · intro h
    obtain ⟨p, hp, he⟩ := List.mem_map.mp h
    exact ⟨p.2, by rw [show (tok, p.2) = p from Prod.ext_iff.mpr ⟨he.symm, rfl⟩]; exact hp⟩
  · rintro ⟨rid, h⟩
    exact List.mem_map.mpr ⟨(tok, rid), h, rfl⟩

lemma notMem_armedToks {st : ClientState} {tok : Nat} (h : tok ∉ armedToks st) :
    ∀ rid, (tok, rid) ∉ st.armed :=
  fun rid hm => h (mem_armedToks.mpr ⟨rid, hm⟩)

lemma mem_pendingToks {st : ClientState} {tok : Nat} :
    tok ∈ pendingToks st ↔ ∃ p, p ∈ st.pending ∧ p.2.tok = tok := by
  unfold pendingToks
  constructor
  · intro h
    obtain ⟨p, hp, he⟩ := List.mem_map.mp h
    exact ⟨p, hp, he⟩
  · rintro ⟨p, hp, he⟩
    exact List.mem_map.mpr ⟨p, hp, he⟩

lemma armed_find_eq_none {st : ClientState} {tok' : Nat}
    (h : tok' ∉ armedToks st) :
    st.armed.find? (fun p => p.1 == tok') = none := by
  rw [List.find?_eq_none]
  intro p hp
  simp only [beq_iff_eq]
  intro he
  exact h (mem_armedToks.mpr ⟨p.2,
    by rw [show (tok', p.2) = p from Prod.ext_iff.mpr ⟨he.symm, rfl⟩]; exact hp⟩)

lemma mem_armedFilter {armed : List (Nat × Nat)} {tok' : Nat} {q : Nat × Nat} :
    q ∈ armed.filter (fun q => q.1 != tok') ↔ q ∈ armed ∧ q.1 ≠ tok' := by
  rw [List.mem_filter]
  simp

lemma fire_phaseFree (st : ClientState) (tok' tok : Nat) (h : PhaseFree st tok) :
    PhaseFree (step st (Ev.fire tok')).1 tok ∧
      countSettles tok (step st (Ev.fire tok')).2 = 0 := by
  cases hfind : st.armed.find? (fun p => p.1 == tok') with
  | none => simp only [step, hfind]; exact ⟨h, rfl⟩
  | some p =>
    have hp1' := List.find?_some hfind
    have hp1 : p.1 = tok' := beq_iff_eq.mp hp1'
    have hpmem := List.mem_of_find?_eq_some hfind
    have htne : tok' ≠ tok := by
      intro he
      exact (notMem_armedToks h.1 p.2)
        (by rw [show (tok, p.2) = p from
          Prod.ext_iff.mpr ⟨by rw [hp1, he], rfl⟩]; exact hpmem)
    simp only [step, hfind]
    by_cases hlk : (st.pending.lookup p.2).isSome
    · rw [if_pos hlk]
      refine ⟨⟨?_, ?_⟩, ?_⟩
      · intro hm
        obtain ⟨rid, hrid⟩ := mem_armedToks.mp hm
        exact notMem_armedToks h.1 rid (mem_armedFilter.mp hrid).1
      · intro hm
        obtain ⟨q, hq, hqtok⟩ := mem_pendingToks.mp hm
        exact h.2 (List.mem_map.mpr ⟨q, (mem_mapDelete.mp hq).1, hqtok⟩)
      · rw [countSettles_settle, if_neg htne]
    · rw [if_neg hlk]
      refine ⟨⟨?_, h.2⟩, rfl⟩
      intro hm
      obtain ⟨rid, hrid⟩ := mem_armedToks.mp hm
      exact notMem_armedToks h.1 rid (mem_armedFilter.mp hrid).1

lemma fire_phaseLive (st : ClientState) (tok' tok : Nat) (g : Ginv st)
    (h : PhaseLive st tok) :
    (tok' = tok → PhaseFree (step st (Ev.fire tok')).1 tok ∧
      countSettles tok (step st (Ev.fire tok')).2 = 1) ∧
    (tok' ≠ tok → PhaseLive (step st (Ev.fire tok')).1 tok ∧
      countSettles tok (step st (Ev.fire tok')).2 = 0) := by
  obtain ⟨rid, ent, harm, hpend, htok, huniq⟩ := h
  constructor
  · intro he
    subst he
    have hfind : ∃ p, st.armed.find? (fun p => p.1 == tok') = some p := by
      cases hf : st.armed.find? (fun p => p.1 == tok') with
      | none =>
        exfalso
        rw [List.find?_eq_none] at hf
        exact hf (tok', rid) harm (beq_self_eq_true tok')
      | some p => exact ⟨p, rfl⟩
    obtain ⟨p, hf⟩ := hfind
    have hp1' := List.find?_some hf
    have hp1 : p.1 = tok' := beq_iff_eq.mp hp1'
    have hpmem := List.mem_of_find?_eq_some hf
    have hp2 : p.2 = rid := by
      have : (tok', p.2) ∈ st.armed := by
        rw [show (tok', p.2) = p from Prod.ext_iff.mpr ⟨hp1.symm, rfl⟩]
        exact hpmem
      exact nodup_fst_eq g.2.1 this harm
    have hlk : (st.pending.lookup p.2).isSome := by
      rw [hp2, nodup_lookup g.1 hpend]
      rfl
    simp only [step, hf]
    rw [if_pos hlk]
    refine ⟨⟨?_, ?_⟩, ?_⟩
    · intro hm
      obtain ⟨rid', hrid'⟩ := mem_armedToks.mp hm
      exact (mem_armedFilter.mp hrid').2 rfl
    · intro hm
      obtain ⟨q, hq, hqtok⟩ := mem_pendingToks.mp hm
      obtain ⟨hqmem, hqkey⟩ := mem_mapDelete.mp hq
      rw [hp2] at hqkey
      exact hqkey (congrArg Prod.fst (huniq q hqmem hqtok))
    · rw [countSettles_settle, if_pos rfl]
  · intro hne
    cases hf : st.armed.find? (fun p => p.1 == tok') with
    | none =>
      simp only [step, hf]
      exact ⟨⟨rid, ent, harm, hpend, htok, huniq⟩, rfl⟩
    | some p =>
      have hp1' := List.find?_some hf
      have hp1 : p.1 = tok' := beq_iff_eq.mp hp1'
      have hpmem := List.mem_of_find?_eq_some hf
      have hrne : p.2 ≠ rid := by
        intro he
        apply hne
        apply nodup_snd_eq g.2.2.1 (a := tok') (b := tok)
        · rw [show (tok', p.2) = p from Prod.ext_iff.mpr ⟨hp1.symm, rfl⟩]
          exact hpmem
        · rw [← he] at harm
          exact harm
      have harm' : (tok, rid) ∈ st.armed.filter (fun q => q.1 != tok') :=
        mem_armedFilter.mpr ⟨harm, fun he => hne he.symm⟩
      simp only [step, hf]
      by_cases hlk : (st.pending.lookup p.2).isSome
      · rw [if_pos hlk]
        refine ⟨⟨rid, ent, harm', ?_, htok, ?_⟩, ?_⟩
        · exact mem_mapDelete.mpr ⟨hpend, fun he => hrne he.symm⟩
        · intro q hq hqtok
          exact huniq q (mem_mapDelete.mp hq).1 hqtok
        · rw [countSettles_settle, if_neg hne]
      · rw [if_neg hlk]
        exact ⟨⟨rid, ent, harm', hpend, htok, huniq⟩, rfl⟩

lemma fire_phaseSettled (st : ClientState) (tok' tok : Nat) (g : Ginv st)
    (h : PhaseSettledArmed st tok) :
    (tok' = tok → PhaseFree (step st (Ev.fire tok')).1 tok ∧
      countSettles tok (step st (Ev.fire tok')).2 = 0) ∧
    (tok' ≠ tok → PhaseSettledArmed (step st (Ev.fire tok')).1 tok ∧
      countSettles tok (step st (Ev.fire tok')).2 = 0) := by
  obtain ⟨rid, harm, hnp, htok⟩ := h
  have hlknone : st.pending.lookup rid = none := by
    rw [lookup_none_iff]
    intro hm
    obtain ⟨q, hq, hqk⟩ := List.mem_map.mp hm
    exact hnp q.2 (by
      rw [show (rid, q.2) = q from Prod.ext_iff.mpr ⟨hqk.symm, rfl⟩]
      exact hq)
  constructor
  · intro he
    subst he
    have hfind : ∃ p, st.armed.find? (fun p => p.1 == tok') = some p := by
      cases hf : st.armed.find? (fun p => p.1 == tok') with
      | none =>
        exfalso
        rw [List.find?_eq_none] at hf
        exact hf (tok', rid) harm (beq_self_eq_true tok')
      | some p => exact ⟨p, rfl⟩
    obtain ⟨p, hf⟩ := hfind
    have hp1' := List.find?_some hf
    have hp1 : p.1 = tok' := beq_iff_eq.mp hp1'
    have hpmem := List.mem_of_find?_eq_some hf
    have hp2 : p.2 = rid := by
      have : (tok', p.2) ∈ st.armed := by
        rw [show (tok', p.2) = p from Prod.ext_iff.mpr ⟨hp1.symm, rfl⟩]
        exact hpmem
      exact nodup_fst_eq g.2.1 this harm
    have hlk : ¬ (st.pending.lookup p.2).isSome = true := by
      rw [hp2, hlknone]
      simp
    simp only [step, hf]
    rw [if_neg hlk]
    refine ⟨⟨?_, htok⟩, rfl⟩
    intro hm
    obtain ⟨rid', hrid'⟩ := mem_armedToks.mp hm
    exact (mem_armedFilter.mp hrid').2 rfl
  · intro hne
    cases hf : st.armed.find? (fun p => p.1 == tok') with
    | none =>
      simp only [step, hf]
      exact ⟨⟨rid, harm, hnp, htok⟩, rfl⟩
    | some p =>
      have hp1' := List.find?_some hf
      have hp1 : p.1 = tok' := beq_iff_eq.mp hp1'
      have harm' : (tok, rid) ∈ st.armed.filter (fun q => q.1 != tok') :=
        mem_armedFilter.mpr ⟨harm, fun he => hne he.symm⟩
      simp only [step, hf]
      by_cases hlk : (st.pending.lookup p.2).isSome
      · rw [if_pos hlk]
        refine ⟨⟨rid, harm', ?_, ?_⟩, ?_⟩
        · intro e' he'
          exact hnp e' (mem_mapDelete.mp he').1
        · intro hm
          obtain ⟨q, hq, hqtok⟩ := mem_pendingToks.mp hm
          exact htok (List.mem_map.mpr ⟨q, (mem_mapDelete.mp hq).1, hqtok⟩)
        · rw [countSettles_settle, if_neg hne]
      · rw [if_neg hlk]
        exact ⟨⟨rid, harm', hnp, htok⟩, rfl⟩

lemma armedToks_fire_sub (st : ClientState) (tok' t : Nat)
    (h : t ∈ armedToks (step st (Ev.fire tok')).1) : t ∈ armedToks st := by
  cases hf : st.armed.find? (fun p => p.1 == tok') with
  | none => simpa only [step, hf] using h
  | some p =>
    simp only [step, hf] at h
    by_cases hlk : (st.pending.lookup p.2).isSome
    · rw [if_pos hlk] at h
      obtain ⟨rid, hrid⟩ := mem_armedToks.mp h
      exact mem_armedToks.mpr ⟨rid, (mem_armedFilter.mp hrid).1⟩
    · rw [if_neg hlk] at h
      obtain ⟨rid, hrid⟩ := mem_armedToks.mp h
      exact mem_armedToks.mpr ⟨rid, (mem_armedFilter.mp hrid).1⟩

lemma Ginv_fire (st : ClientState) (tok' : Nat) (h : Ginv st) :
    Ginv (step st (Ev.fire tok')).1 := by
  obtain ⟨g1, g2, g3, g4⟩ := h
  cases hf : st.armed.find? (fun p => p.1 == tok') with
  | none => simp only [step, hf]; exact ⟨g1, g2, g3, g4⟩
  | some p =>
    have hp1' := List.find?_some hf
    have hp1 : p.1 = tok' := beq_iff_eq.mp hp1'
    have hpmem := List.mem_of_find?_eq_some hf
    have hfsub : List.Sublist
        ((st.armed.filter (fun q => q.1 != tok')).map Prod.fst)
        (st.armed.map Prod.fst) :=
      List.Sublist.map Prod.fst (List.filter_sublist st.armed)
    have hssub : List.Sublist
        ((st.armed.filter (fun q => q.1 != tok')).map Prod.snd)
        (st.armed.map Prod.snd) :=
      List.Sublist.map Prod.snd (List.filter_sublist st.armed)
    simp only [step, hf]
    by_cases hlk : (st.pending.lookup p.2).isSome
    · rw [if_pos hlk]
      refine ⟨(keys_mapDelete_sublist _ _).nodup g1, hfsub.nodup g2,
        hssub.nodup g3, ?_⟩
      intro q hq
      obtain ⟨hqmem, hqkey⟩ := mem_mapDelete.mp hq
      have hrel := g4 q hqmem
      apply mem_armedFilter.mpr
      refine ⟨hrel, ?_⟩
      intro he
      have : (tok', p.2) ∈ st.armed := by
        rw [show (tok', p.2) = p from Prod.ext_iff.mpr ⟨hp1.symm, rfl⟩]
        exact hpmem
      have hq1 : q.1 = p.2 := nodup_fst_eq g2 (he ▸ hrel) this
      exact hqkey hq1
    · rw [if_neg hlk]
      refine ⟨g1, hfsub.nodup g2, hssub.nodup g3, ?_⟩
      intro q hq
      have hrel := g4 q hq
      apply mem_armedFilter.mpr
      refine ⟨hrel, ?_⟩
      intro he
      have : (tok', p.2) ∈ st.armed := by
        rw [show (tok', p.2) = p from Prod.ext_iff.mpr ⟨hp1.symm, rfl⟩]
        exact hpmem
      have hq1 : q.1 = p.2 := nodup_fst_eq g2 (he ▸ hrel) this
      apply hlk
      rw [← hq1, nodup_lookup g1 (show (q.1, q.2) ∈ st.pending from hq)]
      rfl

lemma okFrom_send (sent : List Nat) (st : ClientState) (tok : Nat)
    (exp : Option Nat) (w : Bool) (rest : List Ev) :
    okFrom sent st (Ev.send tok exp w :: rest) =
      ((!(sent.contains tok) &&
        (!(canSend st) || freshId st (nextRequestId st.requestId))) &&
        okFrom (tok :: sent) (step st (Ev.send tok exp w)).1 rest) := rfl

lemma okFrom_frame (sent : List Nat) (st : ClientState) (r : ViceResponse)
    (rest : List Ev) :
    okFrom sent st (Ev.frame r :: rest) =
      (true && okFrom sent (step st (Ev.frame r)).1 rest) := rfl

lemma okFrom_fire (sent : List Nat) (st : ClientState) (tok : Nat)
    (rest : List Ev) :
    okFrom sent st (Ev.fire tok :: rest) =
      (true && okFrom sent (step st (Ev.fire tok)).1 rest) := rfl

lemma okFrom_close (sent : List Nat) (st : ClientState) (rest : List Ev) :
    okFrom sent st (Ev.close :: rest) =
      (true && okFrom sent (step st Ev.close).1 rest) := rfl

lemma registersTok_cons (st : ClientState) (ev : Ev) (rest : List Ev)
    (tok : Nat) :
    registersTok st (ev :: rest) tok =
      ((match ev with
        | Ev.send t _ _ => t == tok && canSend st
        | _ => false) || registersTok (step st ev).1 rest tok) := rfl

lemma run_cons (st : ClientState) (ev : Ev) (rest : List Ev) :
    run st (ev :: rest) =
      ((run (step st ev).1 rest).1,
        (step st ev).2 ++ (run (step st ev).1 rest).2) := rfl

lemma not_mem_of_not_contains {l : List Nat} {a : Nat}
    (h : (!(l.contains a)) = true) : a ∉ l := by
  intro hm
  have hc : l.contains a = true := List.elem_eq_true_of_mem hm
  rw [hc] at h
  simp at h

lemma registersTok_false_of_sent : ∀ (evs : List Ev) (st : ClientState)
    (sent : List Nat) (tok : Nat),
    okFrom sent st evs = true → tok ∈ sent →
    registersTok st evs tok = false := by
  intro evs
  induction evs with
  | nil => intro st sent tok _ _; rfl
  | cons ev rest ih =>
    intro st sent tok hok hmem
    rw [registersTok_cons]
    cases ev with
    | send t e w =>
      rw [okFrom_send, Bool.and_eq_true, Bool.and_eq_true] at hok
      obtain ⟨⟨hcont, _⟩, hrest⟩ := hok
      have htne : t ≠ tok := by
        intro he
        subst he
        exact not_mem_of_not_contains hcont hmem
      simp only [beq_eq_false_iff_ne.mpr htne, Bool.false_and, Bool.false_or]
      exact ih _ _ _ hrest (List.mem_cons_of_mem t hmem)
    | frame r =>
      rw [okFrom_frame, Bool.true_and] at hok
      simp only [Bool.false_or]
      exact ih _ _ _ hok hmem
    | fire t =>
      rw [okFrom_fire, Bool.true_and] at hok
      simp only [Bool.false_or]
      exact ih _ _ _ hok hmem
    | close =>
      rw [okFrom_close, Bool.true_and] at hok
      simp only [Bool.false_or]
      exact ih _ _ _ hok hmem

lemma registersTok_send_eq (st : ClientState) (t : Nat) (exp : Option Nat)
    (w : Bool) (rest : List Ev) (tok : Nat) :
    registersTok st (Ev.send t exp w :: rest) tok =
      ((t == tok && canSend st) ||
        registersTok (step st (Ev.send t exp w)).1 rest tok) := rfl

lemma registersTok_frame_eq (st : ClientState) (r : ViceResponse)
    (rest : List Ev) (tok : Nat) :
    registersTok st (Ev.frame r :: rest) tok =
      (false || registersTok (step st (Ev.frame r)).1 rest tok) := rfl

lemma registersTok_fire_eq (st : ClientState) (t : Nat) (rest : List Ev)
    (tok : Nat) :
    registersTok st (Ev.fire t :: rest) tok =
      (false || registersTok (step st (Ev.fire t)).1 rest tok) := rfl

lemma registersTok_close_eq (st : ClientState) (rest : List Ev) (tok : Nat) :
    registersTok st (Ev.close :: rest) tok =
      (false || registersTok (step st Ev.close).1 rest tok) := rfl

lemma countSettles_run_cons (tok : Nat) (st : ClientState) (ev : Ev)
    (rest : List Ev) :
    countSettles tok (run st (ev :: rest)).2 =
      countSettles tok (step st ev).2 +
        countSettles tok (run (step st ev).1 rest).2 := by
  rw [show (run st (ev :: rest)).2 =
    (step st ev).2 ++ (run (step st ev).1 rest).2 from rfl]
  exact countSettles_append _ _ _

lemma step_send_dead (st : ClientState) (tok' : Nat) (exp : Option Nat)
    (w : Bool) (h : canSend st = false) :
    step st (Ev.send tok' exp w) = (st, []) := by
  unfold canSend at h
  simp only [step]
  rw [if_neg (by rw [h]; simp)]

lemma mapDelete_append_self {α : Type} (m : List (Nat × α)) (rid : Nat) (v : α)
    (h : m.lookup rid = none) : mapDelete (m ++ [(rid, v)]) rid = m := by
  unfold mapDelete
  rw [List.filter_append]
  have h1 : m.filter (fun p => p.1 != rid) = m := by
    rw [List.filter_eq_self]
    intro p hp
    simp only [bne_iff_ne, ne_eq]
    intro he
    rw [lookup_none_iff] at h
    exact h (he ▸ List.mem_map.mpr ⟨p, hp, rfl⟩)
  rw [h1]
  simp

lemma step_send_reg (st : ClientState) (tok' : Nat) (exp : Option Nat)
    (h : canSend st = true)
    (hfresh : st.pending.lookup (nextRequestId st.requestId) = none) :
    step st (Ev.send tok' exp false) =
      ({ st with
        requestId := nextRequestId st.requestId,
        pending := st.pending ++
          [(nextRequestId st.requestId, (⟨tok', exp⟩ : PendingEntry))],
        armed := st.armed ++ [(tok', nextRequestId st.requestId)] }, []) := by
  unfold canSend at h
  simp only [step]
  rw [if_pos h, if_neg (by simp), mapSet_fresh _ _ _ hfresh]

lemma step_send_err (st : ClientState) (tok' : Nat) (exp : Option Nat)
    (h : canSend st = true)
    (hfresh : st.pending.lookup (nextRequestId st.requestId) = none) :
    step st (Ev.send tok' exp true) =
      ({ st with
        requestId := nextRequestId st.requestId,
        pending := st.pending,
        armed := st.armed ++ [(tok', nextRequestId st.requestId)] },
        [Action.settle tok' (Outcome.rejected RejectCode.sendFailed)]) := by
  unfold canSend at h
  simp only [step]
  rw [if_pos h, if_pos trivial, mapSet_fresh _ _ _ hfresh,
    mapDelete_append_self _ _ _ hfresh]

lemma freshId_parts (st : ClientState) (rid : Nat)
    (h : freshId st rid = true) :
    st.pending.lookup rid = none ∧ ∀ q ∈ st.armed, q.2 ≠ rid := by
  unfold freshId at h
  rw [Bool.and_eq_true] at h
  refine ⟨Option.isNone_iff_eq_none.mp h.1, ?_⟩
  intro q hq
  have := List.all_eq_true.mp h.2 q hq
  simpa using this

lemma send_self_phaseFree (st : ClientState) (tok : Nat) (exp : Option Nat)
    (w : Bool) (hcs : canSend st = true)
    (hfresh : freshId st (nextRequestId st.requestId) = true)
    (hfree : PhaseFree st tok) :
    (w = false → PhaseLive (step st (Ev.send tok exp w)).1 tok ∧
      countSettles tok (step st (Ev.send tok exp w)).2 = 0) ∧
    (w = true → PhaseSettledArmed (step st (Ev.send tok exp w)).1 tok ∧
      countSettles tok (step st (Ev.send tok exp w)).2 = 1) := by
  obtain ⟨hlk, hall⟩ := freshId_parts st _ hfresh
  constructor
  · intro hw
    subst hw
    rw [step_send_reg st tok exp hcs hlk]
    refine ⟨⟨nextRequestId st.requestId, ⟨tok, exp⟩, ?_, ?_, rfl, ?_⟩, rfl⟩
    · exact List.mem_append_right _ (List.mem_singleton.mpr rfl)
    · exact List.mem_append_right _ (List.mem_singleton.mpr rfl)
    · intro p hp hptok
      rcases List.mem_append.mp hp with hin | hin
      · exact absurd (List.mem_map.mpr ⟨p, hin, hptok⟩) hfree.2
      · exact List.mem_singleton.mp hin
  · intro hw
    subst hw
    rw [step_send_err st tok exp hcs hlk]
    refine ⟨⟨nextRequestId st.requestId, ?_, ?_, hfree.2⟩, ?_⟩
    · exact List.mem_append_right _ (List.mem_singleton.mpr rfl)
    · intro e' he'
      rw [lookup_none_iff] at hlk
      exact hlk (List.mem_map.mpr ⟨(nextRequestId st.requestId, e'), he', rfl⟩)
    · rw [countSettles_settle, if_pos rfl]

lemma send_other_phaseFree (st : ClientState) (tok' tok : Nat)
    (exp : Option Nat) (w : Bool) (hcs : canSend st = true)
    (hfresh : freshId st (nextRequestId st.requestId) = true)
    (hne : tok' ≠ tok) (hfree : PhaseFree st tok) :
    PhaseFree (step st (Ev.send tok' exp w)).1 tok ∧
      countSettles tok (step st (Ev.send tok' exp w)).2 = 0 := by
  obtain ⟨hlk, hall⟩ := freshId_parts st _ hfresh
  have harm' : tok ∉ armedToks ({ st with
      requestId := nextRequestId st.requestId,
      pending := st.pending ++
        [(nextRequestId st.requestId, (⟨tok', exp⟩ : PendingEntry))],
      armed := st.armed ++ [(tok', nextRequestId st.requestId)] } : ClientState) := by
    intro hm
    obtain ⟨rid, hrid⟩ := mem_armedToks.mp hm
    rcases List.mem_append.mp hrid with hin | hin
    · exact hfree.1 (mem_armedToks.mpr ⟨rid, hin⟩)
    · exact hne (congrArg Prod.fst (List.mem_singleton.mp hin)).symm
  cases w with
  | false =>
    rw [step_send_reg st tok' exp hcs hlk]
    refine ⟨⟨harm', ?_⟩, rfl⟩
    intro hm
    obtain ⟨p, hp, hptok⟩ := mem_pendingToks.mp hm
    rcases List.mem_append.mp hp with hin | hin
    · exact hfree.2 (List.mem_map.mpr ⟨p, hin, hptok⟩)
    · have := List.mem_singleton.mp hin
      subst this
      exact hne hptok
  | true =>
    rw [step_send_err st tok' exp hcs hlk]
    refine ⟨⟨?_, hfree.2⟩, ?_⟩
    · intro hm
      obtain ⟨rid, hrid⟩ := mem_armedToks.mp hm
      rcases List.mem_append.mp hrid with hin | hin
      · exact hfree.1 (mem_armedToks.mpr ⟨rid, hin⟩)
      · exact hne (congrArg Prod.fst (List.mem_singleton.mp hin)).symm
    · rw [countSettles_settle, if_neg hne]

lemma send_other_phaseLive (st : ClientState) (tok' tok : Nat)
    (exp : Option Nat) (w : Bool) (hcs : canSend st = true)
    (hfresh : freshId st (nextRequestId st.requestId) = true)
    (hne : tok' ≠ tok) (h : PhaseLive st tok) :
    PhaseLive (step st (Ev.send tok' exp w)).1 tok ∧
      countSettles tok (step st (Ev.send tok' exp w)).2 = 0 := by
  obtain ⟨hlk, hall⟩ := freshId_parts st _ hfresh
  obtain ⟨rid, ent, harm, hpend, htok, huniq⟩ := h
  cases w with
  | false =>
    rw [step_send_reg st tok' exp hcs hlk]
    refine ⟨⟨rid, ent, List.mem_append_left _ harm,
      List.mem_append_left _ hpend, htok, ?_⟩, rfl⟩
    intro p hp hptok
    rcases List.mem_append.mp hp with hin | hin
    · exact huniq p hin hptok
    · exfalso
      have := List.mem_singleton.mp hin
      subst this
      exact hne hptok
  | true =>
    rw [step_send_err st tok' exp hcs hlk]
    refine ⟨⟨rid, ent, List.mem_append_left _ harm, hpend, htok, huniq⟩, ?_⟩
    rw [countSettles_settle, if_neg hne]

lemma send_other_phaseSettled (st : ClientState) (tok' tok : Nat)
    (exp : Option Nat) (w : Bool) (hcs : canSend st = true)
    (hfresh : freshId st (nextRequestId st.requestId) = true)
    (hne : tok' ≠ tok) (h : PhaseSettledArmed st tok) :
    PhaseSettledArmed (step st (Ev.send tok' exp w)).1 tok ∧
      countSettles tok (step st (Ev.send tok' exp w)).2 = 0 := by
  obtain ⟨hlk, hall⟩ := freshId_parts st _ hfresh
  obtain ⟨rid, harm, hnp, htok⟩ := h
  have hrne : nextRequestId st.requestId ≠ rid :=
    fun he => (hall (tok, rid) harm) he.symm
  cases w with
  | false =>
    rw [step_send_reg st tok' exp hcs hlk]
    refine ⟨⟨rid, List.mem_append_left _ harm, ?_, ?_⟩, rfl⟩
    · intro e' he'
      rcases List.mem_append.mp he' with hin | hin
      · exact hnp e' hin
      · exact hrne (congrArg Prod.fst (List.mem_singleton.mp hin)).symm
    · intro hm
      obtain ⟨p, hp, hptok⟩ := mem_pendingToks.mp hm
      rcases List.mem_append.mp hp with hin | hin
      · exact htok (List.mem_map.mpr ⟨p, hin, hptok⟩)
      · have := List.mem_singleton.mp hin
        subst this
        exact hne hptok
  | true =>
    rw [step_send_err st tok' exp hcs hlk]
    refine ⟨⟨rid, List.mem_append_left _ harm, hnp, htok⟩, ?_⟩
    rw [countSettles_settle, if_neg hne]

lemma Ginv_send (st : ClientState) (tok' : Nat) (exp : Option Nat) (w : Bool)
    (g : Ginv st) (hfresh : canSend st = true →
      freshId st (nextRequestId st.requestId) = true)
    (htok : tok' ∉ armedToks st) :
    Ginv (step st (Ev.send tok' exp w)).1 := by
  obtain ⟨g1, g2, g3, g4⟩ := g
  cases hcs : canSend st with
  | false => rw [step_send_dead st tok' exp w hcs]; exact ⟨g1, g2, g3, g4⟩
  | true =>
    obtain ⟨hlk, hall⟩ := freshId_parts st _ (hfresh hcs)
    have hrid : nextRequestId st.requestId ∉ st.pending.map Prod.fst := by
      rw [← lookup_none_iff]
      exact hlk
    have harmf : ((st.armed ++ [(tok', nextRequestId st.requestId)]).map
        Prod.fst).Nodup := by
      rw [List.map_append, List.nodup_append]
      refine ⟨g2, List.nodup_singleton _, ?_⟩
      intro t ht hmem
      simp only [List.map_cons, List.map_nil, List.mem_singleton] at hmem
      subst hmem
      exact htok ht
    have harms : ((st.armed ++ [(tok', nextRequestId st.requestId)]).map
        Prod.snd).Nodup := by
      rw [List.map_append, List.nodup_append]
      refine ⟨g3, List.nodup_singleton _, ?_⟩
      intro x hx hmem
      simp only [List.map_cons, List.map_nil, List.mem_singleton] at hmem
      subst hmem
      obtain ⟨q, hq, hqsnd⟩ := List.mem_map.mp hx
      exact hall q hq hqsnd
    cases w with
    | false =>
      rw [step_send_reg st tok' exp hcs hlk]
      refine ⟨?_, harmf, harms, ?_⟩
      · rw [List.map_append, List.nodup_append]
        refine ⟨g1, List.nodup_singleton _, ?_⟩
        intro t ht hmem
        simp only [List.map_cons, List.map_nil, List.mem_singleton] at hmem
        subst hmem
        exact hrid ht
      · intro p hp
        rcases List.mem_append.mp hp with hin | hin
        · exact List.mem_append_left _ (g4 p hin)
        · have := List.mem_singleton.mp hin
          subst this
          exact List.mem_append_right _ (List.mem_singleton.mpr rfl)
    | true =>
      rw [step_send_err st tok' exp hcs hlk]
      refine ⟨g1, harmf, harms, ?_⟩
      intro p hp
      exact List.mem_append_left _ (g4 p hp)

lemma armedToks_send_sub (st : ClientState) (tok' t : Nat) (exp : Option Nat)
    (w : Bool) (h : t ∈ armedToks (step st (Ev.send tok' exp w)).1) :
    t ∈ armedToks st ∨ t = tok' := by
  cases hcs : canSend st with
  | false =>
    rw [step_send_dead st tok' exp w hcs] at h
    exact Or.inl h
  | true =>
    unfold canSend at hcs
    obtain ⟨rid, hrid⟩ := mem_armedToks.mp h
    have harm : (step st (Ev.send tok' exp w)).1.armed =
        st.armed ++ [(tok', nextRequestId st.requestId)] := by
      simp only [step]
      rw [if_pos hcs]
      cases w with
      | false => rw [if_neg (by simp)]
      | true => rw [if_pos rfl]
    rw [harm] at hrid
    rcases List.mem_append.mp hrid with hin | hin
    · exact Or.inl (mem_armedToks.mpr ⟨rid, hin⟩)
    · exact Or.inr (congrArg Prod.fst (List.mem_singleton.mp hin))

lemma Ginv_frame (st : ClientState) (r : ViceResponse) (h : Ginv st) :
    Ginv (step st (Ev.frame r)).1 := by
  obtain ⟨g1, g2, g3, g4⟩ := h
  have hpend' : (step st (Ev.frame r)).1.pending = (correlate st.pending r).1 := rfl
  have harm : (step st (Ev.frame r)).1.armed = st.armed := rfl
  rcases correlate_cases st.pending r with hc | ⟨k, e, hke, hc⟩
  · refine ⟨?_, g2, g3, ?_⟩
    · rw [hpend', hc]; exact g1
    · intro p hp
      rw [hpend', hc] at hp
      exact g4 p hp
  · refine ⟨?_, g2, g3, ?_⟩
    · rw [hpend', hc]
      exact (keys_mapDelete_sublist _ _).nodup g1
    · intro p hp
      rw [hpend', hc] at hp
      exact g4 p (mem_mapDelete.mp hp).1

lemma exactly_once_run : ∀ (evs : List Ev) (st : ClientState) (sent : List Nat)
    (tok : Nat),
    Ginv st →
    (∀ t ∈ armedToks st, t ∈ sent) →
    okFrom sent st evs = true →
    ((run st evs).1.armed.all (fun p => p.1 != tok)) = true →
    ((PhaseFree st tok → registersTok st evs tok = true →
        countSettles tok (run st evs).2 = 1) ∧
      (tok ∈ sent → PhaseLive st tok → countSettles tok (run st evs).2 = 1) ∧
      (tok ∈ sent → PhaseSettledArmed st tok →
        countSettles tok (run st evs).2 = 0) ∧
      (tok ∈ sent → PhaseFree st tok → countSettles tok (run st evs).2 = 0)) := by
  intro evs
  induction evs with
  | nil =>
    intro st sent tok g hsub hok hfin
    refine ⟨?_, ?_, ?_, ?_⟩
    · intro _ hreg
      simp [registersTok] at hreg
    · intro _ hlive
      exfalso
      obtain ⟨rid, ent, harm, _, _, _⟩ := hlive
      have := List.all_eq_true.mp hfin (tok, rid) harm
      simp at this
    · intro _ _
      rfl
    · intro _ _
      rfl
  | cons ev rest ih =>
    intro st sent tok g hsub hok hfin
    cases ev with
    | close =>
      rw [okFrom_close, Bool.true_and] at hok
      have g1 := Ginv_close st g
      have hsub1 : ∀ t ∈ armedToks (step st Ev.close).1, t ∈ sent :=
        fun t ht => hsub t ht
      have ihh := ih (step st Ev.close).1 sent tok g1 hsub1 hok hfin
      refine ⟨?_, ?_, ?_, ?_⟩
      · intro hfree hreg
        rw [registersTok_close_eq, Bool.false_or] at hreg
        obtain ⟨hfree', hcnt⟩ := close_phaseFree st tok hfree
        rw [countSettles_run_cons, hcnt, ihh.1 hfree' hreg]
      · intro hsent hlive
        obtain ⟨hset', hcnt⟩ := close_phaseLive st tok g hlive
        rw [countSettles_run_cons, hcnt, ihh.2.2.1 hsent hset']
      · intro hsent hset
        obtain ⟨hset', hcnt⟩ := close_phaseSettled st tok hset
        rw [countSettles_run_cons, hcnt, ihh.2.2.1 hsent hset']
      · intro hsent hfree
        obtain ⟨hfree', hcnt⟩ := close_phaseFree st tok hfree
        rw [countSettles_run_cons, hcnt, ihh.2.2.2 hsent hfree']
    | frame r =>
      rw [okFrom_frame, Bool.true_and] at hok
      have g1 := Ginv_frame st r g
      have hsub1 : ∀ t ∈ armedToks (step st (Ev.frame r)).1, t ∈ sent :=
        fun t ht => hsub t ht
      have ihh := ih (step st (Ev.frame r)).1 sent tok g1 hsub1 hok hfin
      refine ⟨?_, ?_, ?_, ?_⟩
      · intro hfree hreg
        rw [registersTok_frame_eq, Bool.false_or] at hreg
        obtain ⟨hfree', hcnt⟩ := frame_phaseFree st r tok hfree
        rw [countSettles_run_cons, hcnt, ihh.1 hfree' hreg]
      · intro hsent hlive
        rcases frame_phaseLive st r tok g hlive with ⟨hlive', hcnt⟩ | ⟨hset', hcnt⟩
        · rw [countSettles_run_cons, hcnt, ihh.2.1 hsent hlive']
        · rw [countSettles_run_cons, hcnt, ihh.2.2.1 hsent hset']
      · intro hsent hset
        obtain ⟨hset', hcnt⟩ := frame_phaseSettled st r tok hset
        rw [countSettles_run_cons, hcnt, ihh.2.2.1 hsent hset']
      · intro hsent hfree
        obtain ⟨hfree', hcnt⟩ := frame_phaseFree st r tok hfree
        rw [countSettles_run_cons, hcnt, ihh.2.2.2 hsent hfree']
    | fire t' =>
      rw [okFrom_fire, Bool.true_and] at hok
      have g1 := Ginv_fire st t' g
      have hsub1 : ∀ t ∈ armedToks (step st (Ev.fire t')).1, t ∈ sent :=
        fun t ht => hsub t (armedToks_fire_sub st t' t ht)
      have ihh := ih (step st (Ev.fire t')).1 sent tok g1 hsub1 hok hfin
      refine ⟨?_, ?_, ?_, ?_⟩
      · intro hfree hreg
        rw [registersTok_fire_eq, Bool.false_or] at hreg
        obtain ⟨hfree', hcnt⟩ := fire_phaseFree st t' tok hfree
        rw [countSettles_run_cons, hcnt, ihh.1 hfree' hreg]
      · intro hsent hlive
        by_cases ht : t' = tok
        · obtain ⟨hfree', hcnt⟩ := (fire_phaseLive st t' tok g hlive).1 ht
          rw [countSettles_run_cons, hcnt, ihh.2.2.2 hsent hfree']
        · obtain ⟨hlive', hcnt⟩ := (fire_phaseLive st t' tok g hlive).2 ht
          rw [countSettles_run_cons, hcnt, ihh.2.1 hsent hlive']
      · intro hsent hset
        by_cases ht : t' = tok
        · obtain ⟨hfree', hcnt⟩ := (fire_phaseSettled st t' tok g hset).1 ht
          rw [countSettles_run_cons, hcnt, ihh.2.2.2 hsent hfree']
        · obtain ⟨hset', hcnt⟩ := (fire_phaseSettled st t' tok g hset).2 ht
          rw [countSettles_run_cons, hcnt, ihh.2.2.1 hsent hset']
      · intro hsent hfree
        obtain ⟨hfree', hcnt⟩ := fire_phaseFree st t' tok hfree
        rw [countSettles_run_cons, hcnt, ihh.2.2.2 hsent hfree']
    | send t' exp w =>
      rw [okFrom_send, Bool.and_eq_true, Bool.and_eq_true] at hok
      obtain ⟨⟨hcont, hsendok⟩, hrest⟩ := hok
      have htns : t' ∉ sent := not_mem_of_not_contains hcont
      have htna : t' ∉ armedToks st := fun h => htns (hsub t' h)
      have hfreshOk : canSend st = true →
          freshId st (nextRequestId st.requestId) = true := by
        intro hcs
        have hor := hsendok
        rw [Bool.or_eq_true] at hor
        rcases hor with h | h
        · rw [hcs] at h; simp at h
        · exact h
      have g1 := Ginv_send st t' exp w g hfreshOk htna
      have hsub1 : ∀ t ∈ armedToks (step st (Ev.send t' exp w)).1,
          t ∈ t' :: sent := by
        intro t ht
        rcases armedToks_send_sub st t' t exp w ht with h | h
        · exact List.mem_cons_of_mem _ (hsub t h)
        · exact h ▸ List.mem_cons_self _ _
      have ihh := ih (step st (Ev.send t' exp w)).1 (t' :: sent) tok g1 hsub1
        hrest hfin
      refine ⟨?_, ?_, ?_, ?_⟩
      · intro hfree hreg
        rw [registersTok_send_eq] at hreg
        by_cases hcs : canSend st = true
        · by_cases ht : t' = tok
          · subst ht
            cases w with
            | false =>
              obtain ⟨hlive', hcnt⟩ :=
                (send_self_phaseFree st t' exp false hcs (hfreshOk hcs) hfree).1 rfl
              rw [countSettles_run_cons, hcnt,
                ihh.2.1 (List.mem_cons_self _ _) hlive']
            | true =>
              obtain ⟨hset', hcnt⟩ :=
                (send_self_phaseFree st t' exp true hcs (hfreshOk hcs) hfree).2 rfl
              rw [countSettles_run_cons, hcnt,
                ihh.2.2.1 (List.mem_cons_self _ _) hset']
          · have hreg' : registersTok (step st (Ev.send t' exp w)).1 rest tok
                = true := by
              have hor := hreg
              rw [Bool.or_eq_true] at hor
              rcases hor with h | h
              · exfalso
                rw [Bool.and_eq_true] at h
                exact ht (beq_iff_eq.mp h.1)
              · exact h
            obtain ⟨hfree', hcnt⟩ :=
              send_other_phaseFree st t' tok exp w hcs (hfreshOk hcs) ht hfree
            rw [countSettles_run_cons, hcnt, ihh.1 hfree' hreg']
        · have hcs' : canSend st = false := by
            cases hc : canSend st with
            | false => rfl
            | true => exact absurd hc hcs
          have hstep := step_send_dead st t' exp w hcs'
          have hst1 : (step st (Ev.send t' exp w)).1 = st :=
            congrArg Prod.fst hstep
          have hreg' : registersTok (step st (Ev.send t' exp w)).1 rest tok
              = true := by
            have hor := hreg
            rw [Bool.or_eq_true] at hor
            rcases hor with h | h
            · exfalso
              rw [Bool.and_eq_true] at h
              rw [hcs'] at h
              exact absurd h.2 (by simp)
            · exact h
          have hfree1 : PhaseFree (step st (Ev.send t' exp w)).1 tok := by
            rw [hst1]; exact hfree
          have hcnt : countSettles tok (step st (Ev.send t' exp w)).2 = 0 := by
            rw [hstep]
            rfl
          rw [countSettles_run_cons, hcnt, ihh.1 hfree1 hreg']
      · intro hsent hlive
        by_cases hcs : canSend st = true
        · by_cases ht : t' = tok
          · exfalso; subst ht; exact htns hsent
          · obtain ⟨hlive', hcnt⟩ :=
              send_other_phaseLive st t' tok exp w hcs (hfreshOk hcs) ht hlive
            rw [countSettles_run_cons, hcnt,
              ihh.2.1 (List.mem_cons_of_mem _ hsent) hlive']
        · have hcs' : canSend st = false := by
            cases hc : canSend st with
            | false => rfl
            | true => exact absurd hc hcs
          have hstep := step_send_dead st t' exp w hcs'
          have hst1 : (step st (Ev.send t' exp w)).1 = st :=
            congrArg Prod.fst hstep
          have hlive1 : PhaseLive (step st (Ev.send t' exp w)).1 tok := by
            rw [hst1]; exact hlive
          have hcnt : countSettles tok (step st (Ev.send t' exp w)).2 = 0 := by
            rw [hstep]
            rfl
          rw [countSettles_run_cons, hcnt,
            ihh.2.1 (List.mem_cons_of_mem _ hsent) hlive1]
      · intro hsent hset
        by_cases hcs : canSend st = true
        · by_cases ht : t' = tok
          · exfalso; subst ht; exact htns hsent
          · obtain ⟨hset', hcnt⟩ :=
              send_other_phaseSettled st t' tok exp w hcs (hfreshOk hcs) ht hset
            rw [countSettles_run_cons, hcnt,
              ihh.2.2.1 (List.mem_cons_of_mem _ hsent) hset']
        · have hcs' : canSend st = false := by
            cases hc : canSend st with
            | false => rfl
            | true => exact absurd hc hcs
          have hstep := step_send_dead st t' exp w hcs'
          have hst1 : (step st (Ev.send t' exp w)).1 = st :=
            congrArg Prod.fst hstep
          have hset1 : PhaseSettledArmed (step st (Ev.send t' exp w)).1 tok := by
            rw [hst1]; exact hset
          have hcnt : countSettles tok (step st (Ev.send t' exp w)).2 = 0 := by
            rw [hstep]
            rfl
          rw [countSettles_run_cons, hcnt,
            ihh.2.2.1 (List.mem_cons_of_mem _ hsent) hset1]
      · intro hsent hfree
        by_cases hcs : canSend st = true
        · by_cases ht : t' = tok
          · exfalso; subst ht; exact htns hsent
          · obtain ⟨hfree', hcnt⟩ :=
              send_other_phaseFree st t' tok exp w hcs (hfreshOk hcs) ht hfree
            rw [countSettles_run_cons, hcnt,
              ihh.2.2.2 (List.mem_cons_of_mem _ hsent) hfree']
        · have hcs' : canSend st = false := by
            cases hc : canSend st with
            | false => rfl
            | true => exact absurd hc hcs
          have hstep := step_send_dead st t' exp w hcs'
          have hst1 : (step st (Ev.send t' exp w)).1 = st :=
            congrArg Prod.fst hstep
          have hfree1 : PhaseFree (step st (Ev.send t' exp w)).1 tok := by
            rw [hst1]; exact hfree
          have hcnt : countSettles tok (step st (Ev.send t' exp w)).2 = 0 := by
            rw [hstep]
            rfl
          rw [countSettles_run_cons, hcnt,
            ihh.2.2.2 (List.mem_cons_of_mem _ hsent) hfree1]

set_option maxRecDepth 100000 in
set_option maxHeartbeats 1000000 in
/-- C2 counterexample: the claim as stated fails on the code. In `wrapTrace`
257 `sendCommand` calls occur inside one 10-second timeout window; call 257
wraps the 8-bit request id counter back to the id still held by pending
call 1, so `pendingRequests.set` silently replaces call 1's entry, call 1's
timeout then finds the id present and deletes call 257's entry while
rejecting call 1, and call 257 — a pending call created by `sendCommand`,
whose own timeout has fired and with the pending table empty — is settled
zero times, neither resolved nor rejected. -/
theorem sendCommand_exactly_once_counterexample :
    countSettles 257 (run initState wrapTrace).2 = 0 ∧
      registersTok initState wrapTrace 257 = true ∧
      (run initState wrapTrace).1.armed = [] ∧
      (run initState wrapTrace).1.pending = [] := by
  decide

/-- C2 (amended): every pending call created by `sendCommand` resolves or
rejects exactly once — provided no request id collides with a live pending
entry or a still-scheduled response timeout (the discipline `okFrom`
checks, together with distinct caller identities): over any event trace
satisfying it, a call that was registered and whose response timeout has
fired by the end of the trace is settled exactly once, whichever of the
matching response, the send-error path, the 10-second timeout or a
connection close removes its pending entry first. -/
theorem sendCommand_exactly_once (evs : List Ev) (tok : Nat)
    (hok : okFrom [] initState evs = true)
    (hreg : registersTok initState evs tok = true)
    (hfin : ((run initState evs).1.armed.all (fun p => p.1 != tok)) = true) :
    countSettles tok (run initState evs).2 = 1 :=
  (exactly_once_run evs initState [] tok
    ⟨List.nodup_nil, List.nodup_nil, List.nodup_nil,
      fun p hp => absurd hp (List.not_mem_nil p)⟩
    (fun t ht => absurd ht (List.not_mem_nil t))
    hok hfin).1
    ⟨List.not_mem_nil tok, List.not_mem_nil tok⟩ hreg

/-- Witness for C2: a single call that is answered by its response frame and
whose timeout fires afterwards (finding nothing) settles exactly once. -/
theorem sendCommand_exactly_once_witness :
    okFrom [] initState
      [Ev.send 5 (some 0x01) false, Ev.frame ⟨0x01, 0, 1, []⟩, Ev.fire 5]
      = true ∧
    registersTok initState
      [Ev.send 5 (some 0x01) false, Ev.frame ⟨0x01, 0, 1, []⟩, Ev.fire 5] 5
      = true ∧
    ((run initState
      [Ev.send 5 (some 0x01) false, Ev.frame ⟨0x01, 0, 1, []⟩, Ev.fire 5]).1.armed.all
        (fun p => p.1 != 5)) = true ∧
    countSettles 5 (run initState
      [Ev.send 5 (some 0x01) false, Ev.frame ⟨0x01, 0, 1, []⟩, Ev.fire 5]).2 = 1 :=
  ⟨by decide, by decide, by decide,
    sendCommand_exactly_once
      [Ev.send 5 (some 0x01) false, Ev.frame ⟨0x01, 0, 1, []⟩, Ev.fire 5] 5
      (by decide) (by decide) (by decide)⟩

end Vice
